import Mathlib

/-!
# Fem post-processing pipeline (`src/Mod/Fem/App/FemPostPipeline.cpp`)

A shallow embedding of the step source algorithm (`FemStepSourceAlgorithm`) and of the
pipeline object (`FemPostPipeline`).

Conventions of the embedding:

* A finite `double` (or `float`) is the rational number it denotes, so values are `ℚ`.
  The two inexact operations the code performs on them are the fields of `FloatOps`, and the
  functions that use them take a `FloatOps` argument; `FloatOps.ieee` is the code's arithmetic
  (IEEE 754 rounding to nearest), on values that stay finite.
* A document object is identified by its address, an `ObjId`.
* VTK data objects are records of the parts the pipeline inspects: the field arrays
  `TimeValue` and `TimeInfo`, and an identifier for the grid content.
* A function that can throw returns the state reached together with the fault, if any.
-/

set_option autoImplicit false

namespace Fem

/-! ## Values and external operations -/

/-- The inexact floating-point operations used by the pipeline, on the rational values of
finite doubles. `narrow x` is `(double)(float)x`: what is read back from a `vtkFloatArray` after
storing the double `x`. `absDiff step time` is the double `std::abs(step - time)`. -/
structure FloatOps where
  narrow : ℚ → ℚ
  absDiff : ℚ → ℚ → ℚ

/-- Round the quotient `n / d` to the nearest integer, ties to the even one. -/
def roundHalfEven (n : ℤ) (d : ℕ) : ℤ :=
  let f := n / (d : ℤ)
  let r2 := 2 * (n % (d : ℤ))
  if r2 < (d : ℤ) then f
  else if (d : ℤ) < r2 then f + 1
  else if f % 2 = 0 then f else f + 1

/-- The number of halvings that bring `n` below 2, counted with at most `fuel` steps. -/
def floorLog2Aux : Nat → Nat → Nat
  | 0, _ => 0
  | fuel + 1, n => if 2 ≤ n then floorLog2Aux fuel (n / 2) + 1 else 0

/-- The position of the leading bit of `n`: the `k` with `2 ^ k ≤ n < 2 ^ (k + 1)`, for `n > 0`. -/
def floorLog2 (n : Nat) : Nat := floorLog2Aux n n

/-- The exponent `e` with `2 ^ e ≤ |q| < 2 ^ (e + 1)`, for `q ≠ 0`. -/
def binade (q : ℚ) : ℤ :=
  let e0 : ℤ := (floorLog2 q.num.natAbs : ℤ) - (floorLog2 q.den : ℤ)
  if (2 : ℚ) ^ e0 ≤ |q| then e0 else e0 - 1

/-- IEEE 754 rounding to nearest, ties to even, into the binary format with `p` significant bits
and least normal exponent `emin` (gradual underflow below `2 ^ emin`). The format's overflow to
an infinity is outside the rationals: the result is the format's value only for a `q` below the
overflow threshold of the format. -/
def roundToFormat (p : Nat) (emin : ℤ) (q : ℚ) : ℚ :=
  if q = 0 then 0
  else
    let e := max (binade q) emin
    let ulp : ℚ := (2 : ℚ) ^ (e - ((p : ℤ) - 1))
    let scaled := q / ulp
    (roundHalfEven scaled.num scaled.den : ℚ) * ulp

/-- The conversion of a `double` to `float` (binary32: 24 significant bits, least normal exponent
-126), as C++ applies it when a `double` is passed to `vtkFloatArray::InsertNextValue(float)`;
for values in `InBinary32Range`. -/
def narrowBinary32 (q : ℚ) : ℚ := roundToFormat 24 (-126) q

/-- The rounding of an exact result to `double` (binary64: 53 significant bits, least normal
exponent -1022); for values in `InBinary64Range`. -/
def roundBinary64 (q : ℚ) : ℚ := roundToFormat 53 (-1022) q

/-- The values that round to a finite `float`: magnitude below `2 ^ 128 - 2 ^ 103`, the midpoint
between the largest `float` and `2 ^ 128`. From there on the conversion gives an infinity. -/
def InBinary32Range (q : ℚ) : Prop := |q| < 2 ^ 128 - 2 ^ 103

/-- The values that round to a finite `double`: magnitude below `2 ^ 1024 - 2 ^ 970`. -/
def InBinary64Range (q : ℚ) : Prop := |q| < 2 ^ 1024 - 2 ^ 970

/-- The arithmetic of the code: values are stored in single precision, and the distance
`std::abs(step - time)` is the exact distance of the two doubles rounded to `double` (rounding is
symmetric, so the absolute value may be taken before it). -/
def FloatOps.ieee : FloatOps :=
  ⟨narrowBinary32, fun step time => roundBinary64 |step - time|⟩

/-- Identity of a document object (the address held in a link property). -/
abbrev ObjId := Nat

/-! ## VTK data objects -/

/-- A `vtkDataArray` found in field data under some name. `floatArray vs` is a `vtkFloatArray`
with one component holding the values `vs` (so `GetNumberOfTuples() = vs.length` and
`GetValue(0)` is the head); `otherArray n` is a data array of another class with `n` tuples. -/
inductive DataArray where
  | floatArray (values : List ℚ)
  | otherArray (tuples : Nat)
deriving DecidableEq, Repr

/-- A `vtkAbstractArray` found in field data: a `vtkStringArray` with its values, or an array
of another class with its number of tuples. -/
inductive AbstractArray where
  | stringArray (values : List String)
  | otherArray (tuples : Nat)
deriving DecidableEq, Repr

/-- One block of a multi-block dataset: the grid content (identified by a number) and the
field-data array named "TimeValue", if the block has one. -/
structure Block where
  grid : Nat
  TimeValue : Option DataArray
deriving DecidableEq, Repr

/-- A `vtkDataObject` as the pipeline sees it: a leaf dataset, or a `vtkMultiBlockDataSet` with its
blocks in block order and the field-data array named "TimeInfo", if present. -/
inductive DataObject where
  | leaf (grid : Nat)
  | multiBlock (blocks : List Block) (TimeInfo : Option AbstractArray)
deriving DecidableEq, Repr

/-! ## FemStepSourceAlgorithm -/

/-- The source algorithm: the data object it serves (`m_data`, possibly null) and the update
time requested on its output (`UPDATE_TIME_STEP`, possibly absent). -/
structure FemStepSourceAlgorithm where
  m_data : Option DataObject
  UPDATE_TIME_STEP : Option ℚ
deriving DecidableEq, Repr

namespace FemStepSourceAlgorithm

/-- The loop of `getStepValues` from block index `i` on: it stops (`break`) at the first block
without a "TimeValue" array, or whose array is not a `vtkFloatArray` or has no tuple; otherwise it
stores the first value at position `i` of `tSteps`. -/
def stepLoop : List Block → Nat → List ℚ → List ℚ
  | [], _, tSteps => tSteps
  | block :: rest, i, tSteps =>
    match block.TimeValue with
    | none => tSteps
    | some (DataArray.otherArray _) => tSteps
    | some (DataArray.floatArray []) => tSteps
    | some (DataArray.floatArray (v :: _)) => stepLoop rest (i + 1) (tSteps.set i v)

/-- `FemStepSourceAlgorithm::getStepValues()`. The vector `tSteps` is created with `nblocks`
zero entries, filled by the loop, and returned unless its size differs from `nblocks`. -/
def getStepValues (self : FemStepSourceAlgorithm) : List ℚ :=
  match self.m_data with
  | none => []
  | some (DataObject.leaf _) => []
  | some (DataObject.multiBlock blocks _) =>
    let nblocks := blocks.length
    let tSteps := stepLoop blocks 0 (List.replicate nblocks 0)
    if tSteps.length ≠ nblocks then [] else tSteps

/-- The scan of `std::min_element` after its first element: `smallest` is the position of the
smallest value seen so far, `sv` that value, `first` the position of the head of the rest. -/
def minElementScan : Nat → ℚ → Nat → List ℚ → Nat
  | smallest, _, _, [] => smallest
  | smallest, sv, first, x :: rest =>
    if x < sv then minElementScan first x (first + 1) rest
    else minElementScan smallest sv (first + 1) rest

/-- The value `std::distance(begin, std::min_element(begin, end))`: for an empty range
`min_element` returns `end = begin`, distance `0`. -/
def minElement : List ℚ → Nat
  | [] => 0
  | x :: rest => minElementScan 0 x 1 rest

/-- What `RequestData` leaves on the output: the data object itself set as output
(`outInfo->Set(DATA_OBJECT(), m_data)`), or a shallow copy of a block (`GetBlock(idx)`, which is
null when `idx` is not a block index). -/
inductive Delivered where
  | dataObject (d : DataObject)
  | shallowCopy (block : Option Block)
deriving DecidableEq, Repr

/-- `FemStepSourceAlgorithm::RequestData`. `hasOutput` tells whether the output information
holds a `vtkUnstructuredGrid`. The result is `none` when the function returns 0. -/
def RequestData (ops : FloatOps) (self : FemStepSourceAlgorithm) (hasOutput : Bool) :
    Option Delivered :=
  if hasOutput = false then none
  else
    match self.m_data with
    | none => none
    | some (DataObject.leaf g) => some (Delivered.dataObject (DataObject.leaf g))
    | some (DataObject.multiBlock blocks _) =>
      let idx :=
        match self.UPDATE_TIME_STEP with
        | some time => minElement ((getStepValues self).map (fun step => ops.absDiff step time))
        | none => 0
      some (Delivered.shallowCopy blocks[idx]?)

end FemStepSourceAlgorithm

/-! ## Enumerations, units and console (external collaborators) -/

/-- Modelled from the spec: `App::Enumeration` is declared outside these sources. It is a list of
labels with a selected index; installing a new label list gives the default selection, index 0. -/
structure Enumeration where
  enums : List String
  index : Int
deriving DecidableEq, Repr

namespace Enumeration

/-- The default-constructed enumeration (`App::Enumeration empty;`). -/
def empty : Enumeration := ⟨[], 0⟩

/-- `Enumeration::hasEnums()`. -/
def hasEnums (e : Enumeration) : Bool := !e.enums.isEmpty

/-- `Enumeration::getInt()`: the selected index. -/
def getInt (e : Enumeration) : Int := e.index

/-- `Enumeration::getCStr()`: the selected label (empty when the index selects none). -/
def getCStr (e : Enumeration) : String :=
  if 0 ≤ e.index then e.enums.getD e.index.toNat "" else ""

/-- `Enumeration::setEnums(values)`: install the labels, default selection. -/
def setEnums (_e : Enumeration) (values : List String) : Enumeration := ⟨values, 0⟩

/-- `Enumeration::setValue(label)`: select the first entry equal to `label`; the selection is
kept when no entry is. -/
def setValue (e : Enumeration) (label : String) : Enumeration :=
  if label ∈ e.enums then ⟨e.enums, (e.enums.indexOf label : Int)⟩ else e

end Enumeration

/-- Modelled from the spec: `App::PropertyEnumeration` is declared outside these sources: an
enumeration together with the touched flag of the property. Stores made by the handler itself
are plain stores. -/
structure PropertyEnumeration where
  value : Enumeration
  touched : Bool
deriving DecidableEq, Repr

namespace PropertyEnumeration

/-- `PropertyEnumeration::hasEnums()`. -/
def hasEnums (p : PropertyEnumeration) : Bool := p.value.hasEnums

/-- `PropertyEnumeration::getValue()`, a `long`. -/
def getValue (p : PropertyEnumeration) : Int := p.value.getInt

/-- `PropertyEnumeration::getValueAsString()`. -/
def getValueAsString (p : PropertyEnumeration) : String := p.value.getCStr

/-- `PropertyEnumeration::setValue(const Enumeration&)`. -/
def setEnumeration (_p : PropertyEnumeration) (e : Enumeration) : PropertyEnumeration :=
  ⟨e, true⟩

/-- `PropertyEnumeration::setValue(const char*)`. -/
def setValue (p : PropertyEnumeration) (label : String) : PropertyEnumeration :=
  ⟨p.value.setValue label, true⟩

/-- `Property::purgeTouched()`. -/
def purgeTouched (p : PropertyEnumeration) : PropertyEnumeration := ⟨p.value, false⟩

end PropertyEnumeration

/-- The operations of `Base::Unit` and `Base::Quantity` the pipeline calls; they are declared
outside these sources and taken as parameters. `getString` is `Unit::getString()`, `ofString` the
constructor `Unit(QString)`, `TimeSpan` the constant `Unit::TimeSpan` and `getUserString step unit`
the text of `Quantity(step, unit).getUserString()`. -/
structure UnitOps (U : Type) where
  getString : U → String
  ofString : String → U
  TimeSpan : U
  getUserString : ℚ → U → String

/-- Units named by their text, with `getUserString` printing numerator, denominator and unit. -/
def UnitOps.text : UnitOps String :=
  ⟨fun u => u, fun s => s, "s",
    fun step unit => toString step.num ++ "/" ++ toString step.den ++ " " ++ unit⟩

/-! ## FemPostPipeline -/

/-- An output port a filter input can be connected to: the output port 0 of the pipeline's source
algorithm, the output port of the target of a filter's active filter pipeline, or a port of some
other algorithm. -/
inductive Port where
  | sourceOutput
  | activeOutput (filter : ObjId)
  | other (k : Nat)
deriving DecidableEq, Repr

/-- The state of the document objects the pipeline's `Group` refers to, by object identity:
whether the object is touched, whether it derives from `FemPostFilter`, the value of a filter's
`Step` property, and the connections of input port 0 of the source of the filter's active
filter pipeline. -/
structure PostObjects where
  touched : ObjId → Bool
  isFilter : ObjId → Bool
  Step : ObjId → ℚ
  inputs : ObjId → List Port

namespace PostObjects

/-- `obj->touch()`. -/
def touch (o : PostObjects) (obj : ObjId) : PostObjects :=
  { o with touched := Function.update o.touched obj true }

/-- `static_cast<FemPostFilter*>(obj)->Step.setValue(step)`. -/
def setStep (o : PostObjects) (obj : ObjId) (step : ℚ) : PostObjects :=
  { o with Step := Function.update o.Step obj step }

/-- `getActiveFilterPipeline().source->RemoveAllInputConnections(0)` on filter `obj`. -/
def RemoveAllInputConnections (o : PostObjects) (obj : ObjId) : PostObjects :=
  { o with inputs := Function.update o.inputs obj [] }

/-- `getActiveFilterPipeline().source->SetInputConnection(port)` on filter `obj`: the given port
becomes the only connection of input port 0. -/
def SetInputConnection (o : PostObjects) (obj : ObjId) (port : Port) : PostObjects :=
  { o with inputs := Function.update o.inputs obj [port] }

end PostObjects

/-- The properties whose change `onChanged` is notified of. -/
inductive Property where
  | Data
  | Step
  | Group
  | Mode
  | other
deriving DecidableEq, Repr

/-- What ends a handler abnormally: a thrown `Base::ValueError`, or an element access
`steps[index]` outside a vector of `size` elements (undefined behaviour in C++). -/
inductive Fault where
  | ValueError (msg : String)
  | outOfRange (index : Nat) (size : Nat)
deriving DecidableEq, Repr

/-- The pipeline object with the document objects it acts on. -/
structure FemPostPipeline where
  Data : Option DataObject
  Mode : Int
  Step : PropertyEnumeration
  Group : List ObjId
  m_stepEnum : Enumeration
  m_source_algorithm : FemStepSourceAlgorithm
  objects : PostObjects

/-- The state a handler ends in, and the fault that ended it, if any. -/
structure Outcome where
  state : FemPostPipeline
  fault : Option Fault

/-- A result object as `load` sees it: its identity and whether its `Mesh` link points to an object
derived from `Fem::FemMeshObject`. -/
structure FemResultObject where
  id : Nat
  meshIsFemMeshObject : Bool
deriving DecidableEq, Repr

/-- The conversion of a `long` to `size_t` (64 bit) made when a `long` is compared with, or used
as, a vector size or index. -/
def toSizeT (v : Int) : Nat := (v % 2 ^ 64).toNat

namespace FemPostPipeline

/-- `FemPostPipeline::getStepValues()`. -/
def getStepValues (self : FemPostPipeline) : List ℚ :=
  self.m_source_algorithm.getStepValues

/-- `FemPostPipeline::hasSteps()`. -/
def hasSteps (self : FemPostPipeline) : Bool :=
  !self.m_source_algorithm.getStepValues.isEmpty

/-- `FemPostPipeline::getStepNumber()`: the size of the step vector converted to
`unsigned int` (32 bit). -/
def getStepNumber (self : FemPostPipeline) : Nat :=
  self.getStepValues.length % 2 ^ 32

/-- `FemPostPipeline::getStepType()`. -/
def getStepType (self : FemPostPipeline) : String :=
  match self.Data with
  | none => "no steps"
  | some (DataObject.leaf _) => "no steps"
  | some (DataObject.multiBlock _ none) => "unknown"
  | some (DataObject.multiBlock _ (some (AbstractArray.otherArray _))) => "unknown"
  | some (DataObject.multiBlock _ (some (AbstractArray.stringArray values))) =>
    if values.length < 2 then "unknown" else values.getD 0 ""

/-- `FemPostPipeline::getStepUnit()`. -/
def getStepUnit {U : Type} (uops : UnitOps U) (self : FemPostPipeline) : U :=
  match self.Data with
  | none => uops.TimeSpan
  | some (DataObject.leaf _) => uops.TimeSpan
  | some (DataObject.multiBlock _ none) => uops.TimeSpan
  | some (DataObject.multiBlock _ (some (AbstractArray.otherArray _))) => uops.TimeSpan
  | some (DataObject.multiBlock _ (some (AbstractArray.stringArray values))) =>
    if values.length < 2 then uops.TimeSpan else uops.ofString (values.getD 1 "")

/-- The step value `recomputeChildren` hands to the filters: `steps[Step.getValue()]` when the
step list is not empty and `Step.getValue() < steps.size()` (a comparison of `long` with
`size_t`, made after converting the `long` to `size_t`), else the initial `0`. -/
def currentStep (self : FemPostPipeline) : ℚ :=
  let steps := self.getStepValues
  if !steps.isEmpty && decide (toSizeT self.Step.getValue < steps.length) then
    steps.getD (toSizeT self.Step.getValue) 0
  else 0

/-- The loop of `recomputeChildren` over `Group.getValues()`: every object is touched, and the
`Step` of every object derived from `FemPostFilter` is set. -/
def recomputeLoop (step : ℚ) : List ObjId → PostObjects → PostObjects
  | [], objects => objects
  | obj :: rest, objects =>
    let touchedObjects := objects.touch obj
    recomputeLoop step rest
      (if touchedObjects.isFilter obj then touchedObjects.setStep obj step else touchedObjects)

/-- `FemPostPipeline::recomputeChildren()`. -/
def recomputeChildren (self : FemPostPipeline) : FemPostPipeline :=
  { self with objects := recomputeLoop self.currentStep self.Group self.objects }

/-- The text `val` that the `Data` branch of `onChanged` captures before it rebuilds the labels:
the selected label when `Step.hasEnums() && Step.getValue() >= 0`, else the empty string. -/
def previousLabel (self : FemPostPipeline) : String :=
  if self.Step.hasEnums && decide (0 ≤ self.Step.getValue) then self.Step.getValueAsString
  else ""

/-- The vector `step_values` that the `Data` branch of `onChanged` builds from the step values of
the source algorithm. -/
def stepLabels {U : Type} (uops : UnitOps U) (self : FemPostPipeline) : List String :=
  let steps := self.m_source_algorithm.getStepValues
  if steps.isEmpty then ["No steps available"]
  else
    let unit := getStepUnit uops self
    steps.map (fun step => uops.getUserString step unit)

/-- The branch `prop == &Data` of `FemPostPipeline::onChanged`. -/
def onChangedData {U : Type} (uops : UnitOps U) (self : FemPostPipeline) : FemPostPipeline :=
  -- m_source_algorithm->setDataObject(Data.getValue())
  let s1 := { self with m_source_algorithm := { self.m_source_algorithm with m_data := self.Data } }
  let val := previousLabel s1
  let step_values := stepLabels uops s1
  -- Step.setValue(empty); m_stepEnum.setEnums(step_values); Step.setValue(m_stepEnum)
  let s2 := { s1 with Step := s1.Step.setEnumeration Enumeration.empty }
  let s3 := { s2 with m_stepEnum := s2.m_stepEnum.setEnums step_values }
  let s4 := { s3 with Step := s3.Step.setEnumeration s3.m_stepEnum }
  let s5 :=
    if val ≠ "" ∧ val ∈ step_values then { s4 with Step := s4.Step.setValue val } else s4
  let s6 := { s5 with Step := s5.Step.purgeTouched }
  recomputeChildren s6

/-- The branch `prop == &Step` of `FemPostPipeline::onChanged`. The guard compares
`Step.getValue()` with `long(steps.size())` as signed numbers; the element access converts the
`long` to `size_t`. -/
def onChangedStep (self : FemPostPipeline) : Outcome :=
  let steps := self.getStepValues
  if !steps.isEmpty && decide (self.Step.getValue < (steps.length : Int)) then
    match steps[toSizeT self.Step.getValue]? with
    | some time =>
      -- m_source_algorithm->UpdateTimeStep(time)
      let s1 :=
        { self with
          m_source_algorithm := { self.m_source_algorithm with UPDATE_TIME_STEP := some time } }
      ⟨recomputeChildren s1, none⟩
    | none => ⟨self, some (Fault.outOfRange (toSizeT self.Step.getValue) steps.length)⟩
  else ⟨recomputeChildren self, none⟩

/-- The rewiring loop of `onChanged` over the objects of `Group`; `filter` is the previous
filter (`NULL` before the first). The connections of the current filter are removed before the
mode is looked at; an unknown mode throws `Base::ValueError`. -/
def rewireLoop (mode : Int) : Option ObjId → List ObjId → PostObjects → PostObjects × Option Fault
  | _, [], objects => (objects, none)
  | filter, nextFilter :: rest, objects =>
    let cleared := objects.RemoveAllInputConnections nextFilter
    if mode = 0 then
      match filter with
      | none => rewireLoop mode (some nextFilter) rest
          (cleared.SetInputConnection nextFilter Port.sourceOutput)
      | some f => rewireLoop mode (some nextFilter) rest
          (cleared.SetInputConnection nextFilter (Port.activeOutput f))
    else if mode = 1 then
      rewireLoop mode (some nextFilter) rest
        (cleared.SetInputConnection nextFilter Port.sourceOutput)
    else (cleared, some (Fault.ValueError "Unknown Mode set for Pipeline"))

/-- The branch `prop == &Group || prop == &Mode` of `FemPostPipeline::onChanged`. -/
def onChangedGroupOrMode (self : FemPostPipeline) : Outcome :=
  if self.Group.isEmpty then ⟨self, none⟩
  else
    let r := rewireLoop self.Mode none self.Group self.objects
    ⟨{ self with objects := r.1 }, r.2⟩

/-- `FemPostPipeline::onChanged(prop)`. The call of `FemPostObject::onChanged` that ends it acts
on nothing modelled here. -/
def onChanged {U : Type} (uops : UnitOps U) (prop : Property) (self : FemPostPipeline) :
    Outcome :=
  match prop with
  | Property.Data => ⟨onChangedData uops self, none⟩
  | Property.Step => onChangedStep self
  | Property.Group => onChangedGroupOrMode self
  | Property.Mode => onChangedGroupOrMode self
  | Property.other => ⟨self, none⟩

/-- The loop of `filterChanged` over the objects of `Group`: an object is touched when the
changed filter has been met before it. -/
def filterLoop (filter : ObjId) : Bool → List ObjId → PostObjects → PostObjects
  | _, [], objects => objects
  | started, obj :: rest, objects =>
    filterLoop filter (if obj = filter then true else started) rest
      (if started then objects.touch obj else objects)

/-- `FemPostPipeline::filterChanged(filter)`. -/
def filterChanged (self : FemPostPipeline) (filter : ObjId) : FemPostPipeline :=
  if self.Mode = 0 then
    if self.Group.isEmpty then self
    else { self with objects := filterLoop filter false self.Group self.objects }
  else self

/-- The loop of the multi-step `load` over the result objects paired with their step values
(the two vectors have the same size there): `none` when a result's mesh is not a
`Fem::FemMeshObject`, else the blocks set so far followed by one block per result, each with a
one-component `vtkFloatArray` "TimeValue" holding the value. -/
def loadLoop (ops : FloatOps) : List (FemResultObject × ℚ) → List Block → Option (List Block)
  | [], blocks => some blocks
  | (res, value) :: rest, blocks =>
    if res.meshIsFemMeshObject = false then none
    else loadLoop ops rest
      (blocks ++ [⟨res.id, some (DataArray.floatArray [ops.narrow value])⟩])

/-- Modelled from the spec: the property framework is outside these sources. `Data.setValue(data)`
stores the dataset and delivers the dataset-replaced event, `onChanged(&Data)`. -/
def setData {U : Type} (uops : UnitOps U) (self : FemPostPipeline) (data : DataObject) :
    FemPostPipeline :=
  onChangedData uops { self with Data := some data }

/-- `FemPostPipeline::load(res, values, unit, step_type)`: the state afterwards and the errors
written to the console. -/
def load {U : Type} (ops : FloatOps) (uops : UnitOps U) (self : FemPostPipeline)
    (res : List FemResultObject) (values : List ℚ) (unit : U) (step_type : String) :
    FemPostPipeline × List String :=
  if res.length ≠ values.length then
    (self, ["Result values and step values have different length.\n"])
  else
    match loadLoop ops (res.zip values) [] with
    | none => (self, ["Result mesh object is not derived from Fem::FemMeshObject.\n"])
    | some blocks =>
      let TimeInfo := AbstractArray.stringArray [step_type, uops.getString unit]
      (setData uops self (DataObject.multiBlock blocks (some TimeInfo)), [])

end FemPostPipeline

/-! ## Specification-side notions used to state the properties -/

/-- A pipeline state with nothing loaded, an empty chain and no connections. -/
def FemPostPipeline.initial : FemPostPipeline :=
  { Data := none
    Mode := 0
    Step := ⟨Enumeration.empty, false⟩
    Group := []
    m_stepEnum := Enumeration.empty
    m_source_algorithm := ⟨none, none⟩
    objects := ⟨fun _ => false, fun _ => true, fun _ => 0, fun _ => []⟩ }


/-- The blocks of the tie-break example: step values 0, 5 and 10. -/
def tieBreakBlocks : List Block :=
  [⟨0, some (DataArray.floatArray [0])⟩, ⟨1, some (DataArray.floatArray [5])⟩,
    ⟨2, some (DataArray.floatArray [10])⟩]

/-- The dataset of the tie-break example. -/
def tieBreakData : DataObject := DataObject.multiBlock tieBreakBlocks none

/-- Three blocks whose step values 7, 3 and 5 are not in increasing order; the second block's
array has two tuples. -/
def unsortedBlocks : List Block :=
  [⟨0, some (DataArray.floatArray [7])⟩, ⟨1, some (DataArray.floatArray [3, 4])⟩,
    ⟨2, some (DataArray.floatArray [5])⟩]

/-- The multi-block dataset of `unsortedBlocks`. -/
def unsortedData : DataObject := DataObject.multiBlock unsortedBlocks none

/-- A Serial pipeline over the chain `[10, 11, 12]` whose objects all carry two stale
connections and are not touched. -/
def staleSerialChain : FemPostPipeline :=
  { FemPostPipeline.initial with
    Group := [10, 11, 12]
    objects := ⟨fun _ => false, fun _ => true, fun _ => 0,
      fun _ => [Port.other 7, Port.activeOutput 12]⟩ }

/-- A pipeline whose selected step label is "7/1 s", at index 0 of its labels, and whose new
`Data` has the steps 5 and 7 with unit "s". -/
def shiftedLabelPipeline : FemPostPipeline :=
  { FemPostPipeline.initial with
    Step := ⟨⟨["7/1 s"], 0⟩, false⟩
    Data := some (DataObject.multiBlock
      [⟨0, some (DataArray.floatArray [5])⟩, ⟨1, some (DataArray.floatArray [7])⟩]
      (some (AbstractArray.stringArray ["time", "s"]))) }

/-- The upstream port the Serial rewiring gives a filter whose predecessor in the chain is
`previous` (none for the first filter). -/
def serialUpstream (previous : Option ObjId) : Port :=
  match previous with
  | none => Port.sourceOutput
  | some f => Port.activeOutput f

/-- The members of a chain positioned after the first occurrence of `f` (none when `f` does not
occur). -/
def membersAfter (f : ObjId) : List ObjId → List ObjId
  | [] => []
  | c :: rest => if c = f then rest else membersAfter f rest

/-- The first value of a block's "TimeValue" array, when that is a float array with a tuple. -/
def Block.firstTimeValue (b : Block) : Option ℚ :=
  match b.TimeValue with
  | some (DataArray.floatArray (v :: _)) => some v
  | _ => none

/-! ## Reading result files -/

/-- The parts of `Base::FileInfo` (declared outside these sources) that `canRead` and `read` ask
for: the path, whether the file is readable, and for each extension text whether
`hasExtension` holds for it. -/
structure FileInfo where
  filePath : String
  isReadable : Bool
  hasExtension : String → Bool

/-- The VTK reader classes `read` instantiates `readXMLFile` with. -/
inductive Reader where
  | vtkXMLUnstructuredGridReader
  | vtkXMLPUnstructuredGridReader
  | vtkXMLPolyDataReader
  | vtkXMLStructuredGridReader
  | vtkXMLRectilinearGridReader
  | vtkXMLImageDataReader
  | vtkDataSetReader
deriving DecidableEq, Repr

/-- How `read` ends: a thrown `Base::FileException` with its message and the file it carries
(none when it is constructed from the message alone), or the call of `readXMLFile` for a reader
class on the file's path. -/
inductive ReadResult where
  | FileException (msg : String) (file : Option FileInfo)
  | readXMLFile (reader : Reader) (filePath : String)

/-- `FemPostPipeline::canRead(File)`: `File.hasExtension` on the list of seven extensions, which
holds when it holds for one of them. -/
def FemPostPipeline.canRead (File : FileInfo) : Bool :=
  ["vtk", "vtp", "vts", "vtr", "vti", "vtu", "pvtu"].any File.hasExtension

/-- `FemPostPipeline::read(File)`. -/
def FemPostPipeline.read (File : FileInfo) : ReadResult :=
  if File.isReadable = false then
    ReadResult.FileException "File to load not existing or not readable" (some File)
  else if File.hasExtension "vtu" then
    ReadResult.readXMLFile Reader.vtkXMLUnstructuredGridReader File.filePath
  else if File.hasExtension "pvtu" then
    ReadResult.readXMLFile Reader.vtkXMLPUnstructuredGridReader File.filePath
  else if File.hasExtension "vtp" then
    ReadResult.readXMLFile Reader.vtkXMLPolyDataReader File.filePath
  else if File.hasExtension "vts" then
    ReadResult.readXMLFile Reader.vtkXMLStructuredGridReader File.filePath
  else if File.hasExtension "vtr" then
    ReadResult.readXMLFile Reader.vtkXMLRectilinearGridReader File.filePath
  else if File.hasExtension "vti" then
    ReadResult.readXMLFile Reader.vtkXMLImageDataReader File.filePath
  else if File.hasExtension "vtk" then
    ReadResult.readXMLFile Reader.vtkDataSetReader File.filePath
  else ReadResult.FileException "Unknown extension" none

/-- Whether `read` ended by throwing. -/
def ReadResult.isFault : ReadResult → Bool
  | ReadResult.FileException _ _ => true
  | ReadResult.readXMLFile _ _ => false

/-- A file whose `hasExtension` compares the given text with the file's extension. -/
def FileInfo.withExtension (filePath extension : String) (isReadable : Bool) : FileInfo :=
  ⟨filePath, isReadable, fun e => decide (e = extension)⟩

/-- The extensions the specification lists as recognized. -/
def recognizedExtensions : List String := ["vtk", "vtp", "vts", "vtr", "vti", "vtu", "pvtu"]

/-- Three blocks with the step values 0, 1 and 2. -/
def threeStepBlocks : List Block :=
  [⟨0, some (DataArray.floatArray [0])⟩, ⟨1, some (DataArray.floatArray [1])⟩,
    ⟨2, some (DataArray.floatArray [2])⟩]

/-- A Serial pipeline over the chain `[10, 11, 12]` whose source serves `threeStepBlocks`, with
the step at index 1 selected and the time 2 requested before. Object 11 is not a filter. -/
def threeStepPipeline : FemPostPipeline :=
  { FemPostPipeline.initial with
    Data := some (DataObject.multiBlock threeStepBlocks none)
    Step := ⟨⟨["0/1 s", "1/1 s", "2/1 s"], 1⟩, false⟩
    Group := [10, 11, 12]
    m_source_algorithm := ⟨some (DataObject.multiBlock threeStepBlocks none), some 2⟩
    objects := ⟨fun _ => false, fun obj => decide (obj ≠ 11), fun _ => 9, fun _ => []⟩ }

/-- The pipeline `threeStepPipeline` with the selected index 5, beyond its three steps. -/
def beyondLastStepPipeline : FemPostPipeline :=
  { threeStepPipeline with Step := ⟨⟨["0/1 s", "1/1 s", "2/1 s"], 5⟩, false⟩ }

/-- The pipeline `threeStepPipeline` with the selected index -1. -/
def negativeStepPipeline : FemPostPipeline :=
  { threeStepPipeline with Step := ⟨⟨["0/1 s", "1/1 s", "2/1 s"], -1⟩, false⟩ }

/-- The step value the specification assigns to a selection: `s[i]` when the selected index `i`
satisfies `0 ≤ i < length s`, and `0` otherwise. -/
def selectedStepOrZero (self : FemPostPipeline) : ℚ :=
  if 0 ≤ self.Step.getValue ∧ self.Step.getValue < (self.getStepValues.length : Int) then
    self.getStepValues.getD self.Step.getValue.toNat 0
  else 0

/-- The machine ranges of a state: the selected index is a 64-bit `long` and the step list has
fewer than `2 ^ 63` entries. -/
def MachineRanges (self : FemPostPipeline) : Prop :=
  -(2 ^ 63) ≤ self.Step.getValue ∧ self.Step.getValue < 2 ^ 63 ∧
    self.getStepValues.length < 2 ^ 63

/-- The input of `m` is connected directly to the active output of `f`. -/
def directInput (inputs : ObjId → List Port) (f m : ObjId) : Prop :=
  Port.activeOutput f ∈ inputs m

/-- The input of `m` depends on the output of `f`, directly or through a chain of connections. -/
def DependsOn (inputs : ObjId → List Port) (f m : ObjId) : Prop :=
  Relation.TransGen (directInput inputs) f m

/-- The state with every touched flag cleared. -/
def clearTouched (self : FemPostPipeline) : FemPostPipeline :=
  { self with objects := { self.objects with touched := fun _ => false } }

/-- Whether `filterChanged f` marks `m`: the touched flag of `m` after the call on the state with
all flags cleared. -/
def markedBy (self : FemPostPipeline) (f m : ObjId) : Bool :=
  ((clearTouched self).filterChanged f).objects.touched m

/-- Two blocks with the step values 6 and -2. -/
def roundedTieBlocks : List Block :=
  [⟨0, some (DataArray.floatArray [6])⟩, ⟨1, some (DataArray.floatArray [-2])⟩]

/-- The multi-block dataset of `roundedTieBlocks`. -/
def roundedTieData : DataObject := DataObject.multiBlock roundedTieBlocks none

/-- The double `2 - 2 ^ (-52)`, the largest double below 2. -/
def roundedTieTime : ℚ := 9007199254740991 / 4503599627370496

/-! ## Lemmas on the step source -/

namespace FemStepSourceAlgorithm

theorem stepLoop_length (blocks : List Block) :
    ∀ (i : Nat) (tSteps : List ℚ), (stepLoop blocks i tSteps).length = tSteps.length := by
  induction blocks with
  | nil => intro i tSteps; rfl
  | cons b rest ih =>
    intro i tSteps
    unfold stepLoop
    split
    · rfl
    · rfl
    · rfl
    · rw [ih]; simp

theorem getStepValues_length (self : FemStepSourceAlgorithm) (blocks : List Block)
    (ti : Option AbstractArray) (h : self.m_data = some (DataObject.multiBlock blocks ti)) :
    self.getStepValues.length = blocks.length := by
  unfold getStepValues
  rw [h]
  simp [stepLoop_length]

theorem getStepValues_eq (self : FemStepSourceAlgorithm) (blocks : List Block)
    (ti : Option AbstractArray) (h : self.m_data = some (DataObject.multiBlock blocks ti)) :
    self.getStepValues = stepLoop blocks 0 (List.replicate blocks.length 0) := by
  unfold getStepValues
  rw [h]
  simp [stepLoop_length]

theorem stepLoop_getElem_lt (blocks : List Block) :
    ∀ (i : Nat) (tSteps : List ℚ) (j : Nat), j < i →
      (stepLoop blocks i tSteps)[j]? = tSteps[j]? := by
  induction blocks with
  | nil => intro i tSteps j _; rfl
  | cons b rest ih =>
    intro i tSteps j hj
    unfold stepLoop
    split
    · rfl
    · rfl
    · rfl
    · rw [ih (i + 1) _ j (by omega)]
      rw [List.getElem?_set_ne (by omega)]

theorem stepLoop_getElem_good (blocks : List Block) :
    ∀ (i : Nat) (tSteps : List ℚ) (k : Nat) (b : Block),
      (∀ c ∈ blocks, c.firstTimeValue ≠ none) → blocks[k]? = some b → i + k < tSteps.length →
      (stepLoop blocks i tSteps)[i + k]? = b.firstTimeValue := by
  induction blocks with
  | nil => intro i tSteps k b _ hb; simp at hb
  | cons c rest ih =>
    intro i tSteps k b hgood hb hlen
    have hc := hgood c (List.mem_cons_self _ _)
    unfold stepLoop
    split
    · rename_i h; simp [Block.firstTimeValue, h] at hc
    · rename_i h; simp [Block.firstTimeValue, h] at hc
    · rename_i h; simp [Block.firstTimeValue, h] at hc
    · rename_i v vs h
      cases k with
      | zero =>
        simp at hb
        subst hb
        simp only [Nat.add_zero] at hlen ⊢
        rw [stepLoop_getElem_lt rest (i + 1) _ i (by omega)]
        rw [List.getElem?_set_self (by omega)]
        simp [Block.firstTimeValue, h]
      | succ k =>
        simp at hb
        have := ih (i + 1) (tSteps.set i v) k b
          (fun d hd => hgood d (List.mem_cons_of_mem _ hd)) hb (by simp; omega)
        rw [show i + (k + 1) = i + 1 + k by omega]
        exact this

theorem minElementScan_spec (rest : List ℚ) :
    ∀ (pre : List ℚ) (s : Nat) (sv : ℚ), pre[s]? = some sv →
      (∀ (j : Nat) (x : ℚ), pre[j]? = some x → sv ≤ x) →
      (∀ (k : Nat) (x : ℚ), k < s → pre[k]? = some x → sv < x) →
      ∃ m : ℚ, (pre ++ rest)[minElementScan s sv pre.length rest]? = some m ∧
        (∀ (j : Nat) (x : ℚ), (pre ++ rest)[j]? = some x → m ≤ x) ∧
        (∀ (k : Nat) (x : ℚ), k < minElementScan s sv pre.length rest →
          (pre ++ rest)[k]? = some x → m < x) := by
  induction rest with
  | nil =>
    intro pre s sv hs hmin hfirst
    refine ⟨sv, ?_, ?_, ?_⟩
    · simpa [minElementScan] using hs
    · simpa using hmin
    · simpa [minElementScan] using hfirst
  | cons x rest ih =>
    intro pre s sv hs hmin hfirst
    have hslt : s < pre.length := by
      by_contra hcon
      rw [List.getElem?_eq_none (by omega)] at hs
      exact Option.noConfusion hs
    have happ : pre ++ x :: rest = (pre ++ [x]) ++ rest := by simp
    have hlen : (pre ++ [x]).length = pre.length + 1 := by simp
    unfold minElementScan
    rw [happ]
    by_cases hx : x < sv
    · rw [if_pos hx, ← hlen]
      apply ih (pre ++ [x]) pre.length x
      · simp
      · intro j y hj
        rcases Nat.lt_or_ge j pre.length with hlt | hge
        · rw [List.getElem?_append_left hlt] at hj
          exact le_of_lt (lt_of_lt_of_le hx (hmin j y hj))
        · rcases Nat.eq_or_lt_of_le hge with heq | hgt
          · subst heq
            simp at hj
            exact le_of_eq hj
          · rw [List.getElem?_eq_none (by simp; omega)] at hj
            exact Option.noConfusion hj
      · intro k y hk hj
        rw [List.getElem?_append_left hk] at hj
        exact lt_of_lt_of_le hx (hmin k y hj)
    · rw [if_neg hx, ← hlen]
      apply ih (pre ++ [x]) s sv
      · rw [List.getElem?_append_left hslt]; exact hs
      · intro j y hj
        rcases Nat.lt_or_ge j pre.length with hlt | hge
        · rw [List.getElem?_append_left hlt] at hj
          exact hmin j y hj
        · rcases Nat.eq_or_lt_of_le hge with heq | hgt
          · subst heq
            simp at hj
            rw [← hj]
            exact not_lt.mp hx
          · rw [List.getElem?_eq_none (by simp; omega)] at hj
            exact Option.noConfusion hj
      · intro k y hk hj
        rw [List.getElem?_append_left (by omega)] at hj
        exact hfirst k y hk hj

theorem minElement_spec (d : List ℚ) (hne : d ≠ []) :
    ∃ m : ℚ, d[minElement d]? = some m ∧ (∀ (j : Nat) (x : ℚ), d[j]? = some x → m ≤ x) ∧
      (∀ (k : Nat) (x : ℚ), k < minElement d → d[k]? = some x → m < x) := by
  cases d with
  | nil => exact absurd rfl hne
  | cons x rest =>
    have h := minElementScan_spec rest [x] 0 x (by simp)
      (by
        intro j y hj
        cases j with
        | zero => simp at hj; exact le_of_eq hj
        | succ j => simp at hj)
      (by intro k y hk; omega)
    simpa [minElement] using h

end FemStepSourceAlgorithm

/-! ## The step source: properties -/

/-- C1, as stated, fails where the computed distances tie although the exact ones differ: with
the steps 6 and -2 and the requested time `2 - 2 ^ (-52)` (all of them doubles, the steps
floats), the exact distances are `4 + 2 ^ (-52)` and `4 - 2 ^ (-52)`, both are rounded to the
double 4, and `RequestData` delivers block 0 although block 1 is strictly nearer. -/
theorem requestData_rounded_distances_tie :
    FemStepSourceAlgorithm.getStepValues ⟨some roundedTieData, some roundedTieTime⟩ = [6, -2] ∧
    narrowBinary32 6 = 6 ∧ narrowBinary32 (-2) = -2 ∧
    roundBinary64 roundedTieTime = roundedTieTime ∧
    FemStepSourceAlgorithm.RequestData FloatOps.ieee ⟨some roundedTieData, some roundedTieTime⟩
        true
      = some (FemStepSourceAlgorithm.Delivered.shallowCopy
          (some ⟨0, some (DataArray.floatArray [6])⟩)) ∧
    |(-2 : ℚ) - roundedTieTime| < |(6 : ℚ) - roundedTieTime| ∧
    ¬ (|(6 : ℚ) - roundedTieTime| ≤ |(-2 : ℚ) - roundedTieTime|) := by
  decide!

/-- C1, amended: for a multi-block dataset with a non-empty step list `s` and a requested time
`t`, `RequestData` delivers (a shallow copy of) the block at index `i`, where `i` is the smallest
index whose computed distance, `|s[i] - t|` rounded to the nearest double, is at most the
computed distance of every index; when no distance is changed by the rounding, `i` is the
smallest index with `|s[i] - t| ≤ |s[j] - t|` for every `j`. For the steps 0, 5, 10 and
`t = 5/2` block 0 is delivered. The distances stay in the range of finite doubles. -/
theorem requestData_delivers_nearest_block (self : FemStepSourceAlgorithm)
    (blocks : List Block) (ti : Option AbstractArray) (t : ℚ)
    (hdata : self.m_data = some (DataObject.multiBlock blocks ti))
    (htime : self.UPDATE_TIME_STEP = some t)
    (hne : self.getStepValues ≠ [])
    (_hrange : ∀ s ∈ self.getStepValues, InBinary64Range (s - t)) :
    (∃ (i : Nat) (block : Block) (si : ℚ),
      blocks[i]? = some block ∧
      self.RequestData FloatOps.ieee true
        = some (FemStepSourceAlgorithm.Delivered.shallowCopy (some block)) ∧
      self.getStepValues[i]? = some si ∧
      (∀ (j : Nat) (sj : ℚ), self.getStepValues[j]? = some sj →
        roundBinary64 |si - t| ≤ roundBinary64 |sj - t|) ∧
      (∀ (k : Nat) (sk : ℚ), k < i → self.getStepValues[k]? = some sk →
        ¬ ∀ (j : Nat) (sj : ℚ), self.getStepValues[j]? = some sj →
          roundBinary64 |sk - t| ≤ roundBinary64 |sj - t|) ∧
      ((∀ sj ∈ self.getStepValues, roundBinary64 |sj - t| = |sj - t|) →
        (∀ (j : Nat) (sj : ℚ), self.getStepValues[j]? = some sj → |si - t| ≤ |sj - t|) ∧
        (∀ (k : Nat) (sk : ℚ), k < i → self.getStepValues[k]? = some sk →
          ¬ ∀ (j : Nat) (sj : ℚ), self.getStepValues[j]? = some sj →
            |sk - t| ≤ |sj - t|))) ∧
    FemStepSourceAlgorithm.RequestData FloatOps.ieee ⟨some tieBreakData, some (5 / 2)⟩ true
      = some (FemStepSourceAlgorithm.Delivered.shallowCopy
          (some ⟨0, some (DataArray.floatArray [0])⟩)) := by
  constructor
  · have hlen := FemStepSourceAlgorithm.getStepValues_length self blocks ti hdata
    have hdne : self.getStepValues.map (fun step => FloatOps.ieee.absDiff step t) ≠ [] := by
      simpa using hne
    obtain ⟨m, hm, hmin, hfirst⟩ := FemStepSourceAlgorithm.minElement_spec _ hdne
    generalize hi : FemStepSourceAlgorithm.minElement
      (self.getStepValues.map (fun step => FloatOps.ieee.absDiff step t)) = i at hm hfirst
    rw [List.getElem?_map] at hm
    cases hsi : self.getStepValues[i]? with
    | none => rw [hsi] at hm; exact Option.noConfusion hm
    | some si =>
      rw [hsi] at hm
      have hmeq : roundBinary64 |si - t| = m := by
        have : FloatOps.ieee.absDiff si t = m := by simpa using hm
        exact this
      have hilt : i < blocks.length := by
        rw [← hlen]
        exact (List.getElem?_eq_some_iff.mp hsi).1
      have hle : ∀ (j : Nat) (sj : ℚ), self.getStepValues[j]? = some sj →
          roundBinary64 |si - t| ≤ roundBinary64 |sj - t| := by
        intro j sj hj
        rw [hmeq]
        apply hmin j
        rw [List.getElem?_map, hj]
        rfl
      have hlt : ∀ (k : Nat) (sk : ℚ), k < i → self.getStepValues[k]? = some sk →
          roundBinary64 |si - t| < roundBinary64 |sk - t| := by
        intro k sk hk hsk
        rw [hmeq]
        apply hfirst k _ hk
        rw [List.getElem?_map, hsk]
        rfl
      refine ⟨i, blocks[i], si, List.getElem?_eq_getElem hilt, ?_, hsi, hle, ?_, ?_⟩
      · unfold FemStepSourceAlgorithm.RequestData
        rw [hdata, htime]
        simp only [hi]
        simp [List.getElem?_eq_getElem hilt]
      · intro k sk hk hsk hall
        exact absurd (hlt k sk hk hsk) (not_lt.mpr (hall i si hsi))
      · intro hexact
        have hsimem : si ∈ self.getStepValues := List.getElem?_mem hsi
        constructor
        · intro j sj hj
          have := hle j sj hj
          rwa [hexact si hsimem, hexact sj (List.getElem?_mem hj)] at this
        · intro k sk hk hsk hall
          have h1 := hlt k sk hk hsk
          rw [hexact si hsimem, hexact sk (List.getElem?_mem hsk)] at h1
          exact absurd h1 (not_lt.mpr (hall i si hsi))
  · decide!

/-- C1, amended, at the tie-break example of the specification: steps 0, 5, 10 and requested
time 5/2, where no distance is changed by the rounding; the block delivered is block 0. -/
theorem requestData_delivers_nearest_block_witness :
    (∀ s ∈ FemStepSourceAlgorithm.getStepValues ⟨some tieBreakData, some (5 / 2)⟩,
      InBinary64Range (s - 5 / 2)) ∧
    (∀ sj ∈ FemStepSourceAlgorithm.getStepValues ⟨some tieBreakData, some (5 / 2)⟩,
      roundBinary64 |sj - 5 / 2| = |sj - 5 / 2|) ∧
    ∃ (i : Nat) (block : Block) (si : ℚ),
      tieBreakBlocks[i]? = some block ∧
      FemStepSourceAlgorithm.RequestData FloatOps.ieee ⟨some tieBreakData, some (5 / 2)⟩ true
        = some (FemStepSourceAlgorithm.Delivered.shallowCopy (some block)) ∧
      (FemStepSourceAlgorithm.getStepValues ⟨some tieBreakData, some (5 / 2)⟩)[i]? = some si ∧
      (∀ (j : Nat) (sj : ℚ),
        (FemStepSourceAlgorithm.getStepValues ⟨some tieBreakData, some (5 / 2)⟩)[j]? = some sj →
        |si - 5 / 2| ≤ |sj - 5 / 2|) ∧
      (∀ (k : Nat) (sk : ℚ), k < i →
        (FemStepSourceAlgorithm.getStepValues ⟨some tieBreakData, some (5 / 2)⟩)[k]? = some sk →
        ¬ ∀ (j : Nat) (sj : ℚ),
          (FemStepSourceAlgorithm.getStepValues ⟨some tieBreakData, some (5 / 2)⟩)[j]? = some sj →
          |sk - 5 / 2| ≤ |sj - 5 / 2|) := by
  have hs : FemStepSourceAlgorithm.getStepValues ⟨some tieBreakData, some (5 / 2)⟩
      = [0, 5, 10] := rfl
  have hrange : ∀ s ∈ FemStepSourceAlgorithm.getStepValues ⟨some tieBreakData, some (5 / 2)⟩,
      InBinary64Range (s - 5 / 2) := by
    intro s hmem
    rw [hs] at hmem
    simp only [List.mem_cons, List.mem_singleton, List.not_mem_nil, or_false] at hmem
    rcases hmem with h | h | h <;> subst h <;> unfold InBinary64Range <;> decide!
  have hexact : ∀ sj ∈ FemStepSourceAlgorithm.getStepValues ⟨some tieBreakData, some (5 / 2)⟩,
      roundBinary64 |sj - 5 / 2| = |sj - 5 / 2| := by
    intro s hmem
    rw [hs] at hmem
    simp only [List.mem_cons, List.mem_singleton, List.not_mem_nil, or_false] at hmem
    rcases hmem with h | h | h <;> subst h <;> decide!
  obtain ⟨i, block, si, h1, h2, h3, _, _, h6⟩ :=
    (requestData_delivers_nearest_block ⟨some tieBreakData, some (5 / 2)⟩
      tieBreakBlocks none (5 / 2) rfl rfl (by decide) hrange).1
  exact ⟨hrange, hexact, i, block, si, h1, h2, h3, (h6 hexact).1, (h6 hexact).2⟩

/-- C4: on a two-block dataset whose second block has no "TimeValue" array, `getStepValues`
returns the first block's value followed by the zero the vector was created with: a zero-padded
list of one entry per block, not the empty list. -/
theorem getStepValues_missing_TimeValue_zero_padded :
    FemStepSourceAlgorithm.getStepValues
        ⟨some (DataObject.multiBlock [⟨0, some (DataArray.floatArray [1])⟩, ⟨1, none⟩] none), none⟩
      = [1, 0] := by
  rfl

/-- C5: when every block of a multi-block dataset carries a float "TimeValue" array with at
least one tuple, `getStepValues` has one entry per block and its `i`-th entry is the first
"TimeValue" of block `i`, in block order. -/
theorem getStepValues_all_blocks_timed (self : FemStepSourceAlgorithm) (blocks : List Block)
    (ti : Option AbstractArray)
    (hdata : self.m_data = some (DataObject.multiBlock blocks ti))
    (hall : ∀ b ∈ blocks, ∃ (v : ℚ) (vs : List ℚ),
      b.TimeValue = some (DataArray.floatArray (v :: vs))) :
    self.getStepValues.length = blocks.length ∧
    ∀ (i : Nat) (b : Block), blocks[i]? = some b →
      ∃ (v : ℚ) (vs : List ℚ), b.TimeValue = some (DataArray.floatArray (v :: vs)) ∧
        self.getStepValues[i]? = some v := by
  refine ⟨FemStepSourceAlgorithm.getStepValues_length self blocks ti hdata, ?_⟩
  intro i b hb
  have hmem : b ∈ blocks := List.getElem?_mem hb
  obtain ⟨v, vs, hv⟩ := hall b hmem
  refine ⟨v, vs, hv, ?_⟩
  have hgood : ∀ c ∈ blocks, c.firstTimeValue ≠ none := by
    intro c hc
    obtain ⟨w, ws, hw⟩ := hall c hc
    simp [Block.firstTimeValue, hw]
  have hilt : i < blocks.length := (List.getElem?_eq_some_iff.mp hb).1
  have h := FemStepSourceAlgorithm.stepLoop_getElem_good blocks 0
    (List.replicate blocks.length 0) i b hgood hb (by simpa using hilt)
  rw [FemStepSourceAlgorithm.getStepValues_eq self blocks ti hdata]
  rw [Nat.zero_add] at h
  rw [h]
  simp [Block.firstTimeValue, hv]

/-- C5, on three blocks with step values 7, 3 and 5 (block order, not sorted). -/
theorem getStepValues_all_blocks_timed_witness :
    (FemStepSourceAlgorithm.getStepValues ⟨some unsortedData, none⟩).length
        = unsortedBlocks.length ∧
    ∀ (i : Nat) (b : Block), unsortedBlocks[i]? = some b →
      ∃ (v : ℚ) (vs : List ℚ), b.TimeValue = some (DataArray.floatArray (v :: vs)) ∧
        (FemStepSourceAlgorithm.getStepValues ⟨some unsortedData, none⟩)[i]? = some v :=
  getStepValues_all_blocks_timed ⟨some unsortedData, none⟩ unsortedBlocks none rfl
    (by
      intro b hb
      simp only [unsortedBlocks, List.mem_cons, List.mem_singleton, List.not_mem_nil,
        or_false] at hb
      rcases hb with h | h | h
      · exact ⟨7, [], by rw [h]⟩
      · exact ⟨3, [4], by rw [h]⟩
      · exact ⟨5, [], by rw [h]⟩)

/-- C6: for a leaf dataset `D`, `getStepValues` is empty and `RequestData` sets `D` itself as the
output, whatever time is requested (or none). -/
theorem leaf_has_no_steps_and_is_delivered (ops : FloatOps) (g : Nat) (time : Option ℚ) :
    FemStepSourceAlgorithm.getStepValues ⟨some (DataObject.leaf g), time⟩ = [] ∧
    FemStepSourceAlgorithm.RequestData ops ⟨some (DataObject.leaf g), time⟩ true
      = some (FemStepSourceAlgorithm.Delivered.dataObject (DataObject.leaf g)) :=
  ⟨rfl, rfl⟩

/-! ## Rewiring: lemmas -/

namespace FemPostPipeline

theorem rewireLoop_parallel (chain : List ObjId) :
    ∀ (filter : Option ObjId) (objects : PostObjects),
      (rewireLoop 1 filter chain objects).2 = none ∧
      ∀ n : ObjId, (rewireLoop 1 filter chain objects).1.inputs n
        = if n ∈ chain then [Port.sourceOutput] else objects.inputs n := by
  induction chain with
  | nil => intro filter objects; simp [rewireLoop]
  | cons c rest ih =>
    intro filter objects
    have h := ih (some c)
      ((objects.RemoveAllInputConnections c).SetInputConnection c Port.sourceOutput)
    simp only [rewireLoop, show ¬ ((1 : Int) = 0) by decide, if_false, if_true]
    refine ⟨h.1, ?_⟩
    intro n
    rw [h.2 n]
    by_cases hn : n ∈ rest
    · simp [hn]
    · by_cases hc : n = c
      · subst hc
        simp [hn, PostObjects.SetInputConnection, PostObjects.RemoveAllInputConnections]
      · simp [hn, hc, PostObjects.SetInputConnection, PostObjects.RemoveAllInputConnections,
          Function.update_noteq hc]

theorem rewireLoop_serial (chain : List ObjId) :
    ∀ (filter : Option ObjId) (objects : PostObjects),
      (rewireLoop 0 filter chain objects).2 = none ∧
      (∀ n : ObjId, n ∉ chain →
        (rewireLoop 0 filter chain objects).1.inputs n = objects.inputs n) ∧
      (∀ (i : Nat) (n : ObjId), chain[i]? = some n → n ∉ chain.drop (i + 1) →
        (rewireLoop 0 filter chain objects).1.inputs n
          = [serialUpstream (if i = 0 then filter else chain[i - 1]?)]) := by
  induction chain with
  | nil => intro filter objects; simp [rewireLoop]
  | cons c rest ih =>
    intro filter objects
    have hstep : rewireLoop 0 filter (c :: rest) objects
        = rewireLoop 0 (some c) rest
            ((objects.RemoveAllInputConnections c).SetInputConnection c
              (serialUpstream filter)) := by
      cases filter <;> simp [rewireLoop, serialUpstream]
    rw [hstep]
    obtain ⟨h1, h2, h3⟩ := ih (some c)
      ((objects.RemoveAllInputConnections c).SetInputConnection c (serialUpstream filter))
    refine ⟨h1, ?_, ?_⟩
    · intro n hn
      have hc : n ≠ c := fun h => hn (h ▸ List.mem_cons_self _ _)
      have hr : n ∉ rest := fun h => hn (List.mem_cons_of_mem _ h)
      rw [h2 n hr]
      simp [PostObjects.SetInputConnection, PostObjects.RemoveAllInputConnections,
        Function.update_noteq hc]
    · intro i n hi hlater
      cases i with
      | zero =>
        simp at hi
        subst hi
        have hr : c ∉ rest := by simpa using hlater
        rw [h2 c hr]
        simp [PostObjects.SetInputConnection, PostObjects.RemoveAllInputConnections]
      | succ k =>
        have hk : rest[k]? = some n := by simpa using hi
        have hl : n ∉ rest.drop (k + 1) := by simpa using hlater
        rw [h3 k n hk hl]
        cases k with
        | zero => simp
        | succ j => simp

theorem filterLoop_touched (filter : ObjId) (chain : List ObjId) :
    ∀ (started : Bool) (objects : PostObjects) (m : ObjId),
      (filterLoop filter started chain objects).touched m
        = (objects.touched m ||
            decide (m ∈ (if started then chain else membersAfter filter chain))) := by
  induction chain with
  | nil => intro started objects m; cases started <;> simp [filterLoop, membersAfter]
  | cons c rest ih =>
    intro started objects m
    unfold filterLoop
    rw [ih]
    cases started with
    | true =>
      by_cases hm : m = c
      · subst hm; simp [PostObjects.touch]
      · simp [PostObjects.touch, Function.update_noteq hm, hm]
    | false =>
      by_cases hc : c = filter
      · simp [hc, membersAfter]
      · simp [hc, membersAfter]

theorem filterLoop_not_member (filter : ObjId) (chain : List ObjId) :
    ∀ (objects : PostObjects), filter ∉ chain →
      filterLoop filter false chain objects = objects := by
  induction chain with
  | nil => intro objects _; rfl
  | cons c rest ih =>
    intro objects hf
    have hc : c ≠ filter := fun h => hf (h ▸ List.mem_cons_self _ _)
    have hr : filter ∉ rest := fun h => hf (List.mem_cons_of_mem _ h)
    unfold filterLoop
    simp [hc, ih objects hr]

theorem membersAfter_nodup (filter : ObjId) (chain : List ObjId) :
    ∀ (i : Nat), chain.Nodup → chain[i]? = some filter →
      membersAfter filter chain = chain.drop (i + 1) := by
  induction chain with
  | nil => intro i _ hi; simp at hi
  | cons c rest ih =>
    intro i hnd hi
    cases i with
    | zero =>
      simp at hi
      simp [membersAfter, hi]
    | succ k =>
      have hk : rest[k]? = some filter := by simpa using hi
      have hmem : filter ∈ rest := List.getElem?_mem hk
      have hc : c ≠ filter := by
        intro h
        subst h
        exact (List.nodup_cons.mp hnd).1 hmem
      simp [membersAfter, hc, ih k (List.nodup_cons.mp hnd).2 hk]

end FemPostPipeline

/-! ## Rewiring and invalidation: properties -/

/-- C2, as stated, fails on a chain that lists the same filter twice: after the Serial rewiring
of the chain `[0, 0]` the input of its first node is that node's own active output, not the
output of the pipeline source. -/
theorem serial_rewiring_repeated_member :
    ({ FemPostPipeline.initial with Group := [0, 0] } : FemPostPipeline).Mode = 0 ∧
    ({ FemPostPipeline.initial with Group := [0, 0] } : FemPostPipeline).Group[0]? = some 0 ∧
    (FemPostPipeline.onChanged UnitOps.text Property.Group
        { FemPostPipeline.initial with Group := [0, 0] }).state.objects.inputs 0
      = [Port.activeOutput 0] ∧
    (FemPostPipeline.onChanged UnitOps.text Property.Group
        { FemPostPipeline.initial with Group := [0, 0] }).state.objects.inputs 0
      ≠ [Port.sourceOutput] := by
  decide

/-- C2, amended: for every non-empty chain and every prior connection state, the rewiring in
Serial mode ends without a fault and leaves each node that does not occur again later in the
chain (every node, when the members are pairwise distinct) with exactly one upstream connection:
the pipeline source's output for the node at position 0, and the active output of the node at
position `i` for the node at position `i + 1`. -/
theorem serial_rewiring_connects_chain {U : Type} (uops : UnitOps U) (self : FemPostPipeline)
    (prop : Property) (hprop : prop = Property.Group ∨ prop = Property.Mode)
    (hmode : self.Mode = 0) (hne : self.Group ≠ []) :
    (FemPostPipeline.onChanged uops prop self).fault = none ∧
    (∀ n : ObjId, self.Group[0]? = some n → n ∉ self.Group.drop 1 →
      (FemPostPipeline.onChanged uops prop self).state.objects.inputs n
        = [Port.sourceOutput]) ∧
    (∀ (i : Nat) (p n : ObjId), self.Group[i]? = some p → self.Group[i + 1]? = some n →
      n ∉ self.Group.drop (i + 2) →
      (FemPostPipeline.onChanged uops prop self).state.objects.inputs n
        = [Port.activeOutput p]) := by
  have hrun : FemPostPipeline.onChanged uops prop self
      = ⟨{ self with
            objects := (FemPostPipeline.rewireLoop 0 none self.Group self.objects).1 },
          (FemPostPipeline.rewireLoop 0 none self.Group self.objects).2⟩ := by
    have hempty : self.Group.isEmpty = false := by
      cases hg : self.Group with
      | nil => exact absurd hg hne
      | cons a l => rfl
    rcases hprop with h | h <;> subst h <;>
      simp [FemPostPipeline.onChanged, FemPostPipeline.onChangedGroupOrMode, hempty, hmode]
  obtain ⟨h1, _, h3⟩ := FemPostPipeline.rewireLoop_serial self.Group none self.objects
  rw [hrun]
  refine ⟨h1, ?_, ?_⟩
  · intro n hn hlater
    have := h3 0 n hn hlater
    simpa [serialUpstream] using this
  · intro i p n hp hn hlater
    have := h3 (i + 1) n hn hlater
    simpa [serialUpstream, hp] using this

/-- C2, amended, on the chain `[10, 11, 12]` with stale connections on every object. -/
theorem serial_rewiring_connects_chain_witness :
    staleSerialChain.Mode = 0 ∧ staleSerialChain.Group ≠ [] ∧
    (FemPostPipeline.onChanged UnitOps.text Property.Mode staleSerialChain).fault = none ∧
    (FemPostPipeline.onChanged UnitOps.text Property.Mode staleSerialChain).state.objects.inputs 10
      = [Port.sourceOutput] ∧
    (FemPostPipeline.onChanged UnitOps.text Property.Mode staleSerialChain).state.objects.inputs 11
      = [Port.activeOutput 10] ∧
    (FemPostPipeline.onChanged UnitOps.text Property.Mode staleSerialChain).state.objects.inputs 12
      = [Port.activeOutput 11] :=
  have h := serial_rewiring_connects_chain UnitOps.text staleSerialChain Property.Mode
    (Or.inr rfl) rfl (by decide)
  ⟨rfl, by decide, h.1, h.2.1 10 rfl (by decide), h.2.2 0 10 11 rfl rfl (by decide),
    h.2.2 1 11 12 rfl rfl (by decide)⟩

/-- C3: for every non-empty chain and every prior connection state, the rewiring in Parallel
mode ends without a fault and leaves every node of the chain, whatever its position, with
exactly one upstream connection, the pipeline source's output. -/
theorem parallel_rewiring_connects_source {U : Type} (uops : UnitOps U) (self : FemPostPipeline)
    (prop : Property) (hprop : prop = Property.Group ∨ prop = Property.Mode)
    (hmode : self.Mode = 1) (hne : self.Group ≠ []) :
    (FemPostPipeline.onChanged uops prop self).fault = none ∧
    ∀ n ∈ self.Group,
      (FemPostPipeline.onChanged uops prop self).state.objects.inputs n
        = [Port.sourceOutput] := by
  have hrun : FemPostPipeline.onChanged uops prop self
      = ⟨{ self with
            objects := (FemPostPipeline.rewireLoop 1 none self.Group self.objects).1 },
          (FemPostPipeline.rewireLoop 1 none self.Group self.objects).2⟩ := by
    have hempty : self.Group.isEmpty = false := by
      cases hg : self.Group with
      | nil => exact absurd hg hne
      | cons a l => rfl
    rcases hprop with h | h <;> subst h <;>
      simp [FemPostPipeline.onChanged, FemPostPipeline.onChangedGroupOrMode, hempty, hmode]
  obtain ⟨h1, h2⟩ := FemPostPipeline.rewireLoop_parallel self.Group none self.objects
  rw [hrun]
  refine ⟨h1, ?_⟩
  intro n hn
  have := h2 n
  simpa [hn] using this

/-- C3, on the chain `[10, 11, 12]` with stale connections on every object. -/
theorem parallel_rewiring_connects_source_witness :
    ({ staleSerialChain with Mode := 1 } : FemPostPipeline).Mode = 1 ∧
    ({ staleSerialChain with Mode := 1 } : FemPostPipeline).Group ≠ [] ∧
    (FemPostPipeline.onChanged UnitOps.text Property.Group
        { staleSerialChain with Mode := 1 }).fault = none ∧
    (FemPostPipeline.onChanged UnitOps.text Property.Group
        { staleSerialChain with Mode := 1 }).state.objects.inputs 10 = [Port.sourceOutput] ∧
    (FemPostPipeline.onChanged UnitOps.text Property.Group
        { staleSerialChain with Mode := 1 }).state.objects.inputs 11 = [Port.sourceOutput] ∧
    (FemPostPipeline.onChanged UnitOps.text Property.Group
        { staleSerialChain with Mode := 1 }).state.objects.inputs 12 = [Port.sourceOutput] :=
  have h := parallel_rewiring_connects_source UnitOps.text { staleSerialChain with Mode := 1 }
    Property.Group (Or.inl rfl) rfl (by decide)
  ⟨rfl, by decide, h.1, h.2 10 (by decide), h.2 11 (by decide), h.2 12 (by decide)⟩

/-- C7: for a chain of pairwise-distinct members and a filter `f`: in Serial mode
`filterChanged f` touches every member positioned after `f`, leaves the touched flag of `f`
itself, of every member before `f` and of every object outside the chain as it was, and changes
nothing at all when `f` is not in the chain; in Parallel mode it changes nothing. -/
theorem filterChanged_marks_members_after (self : FemPostPipeline) (f : ObjId)
    (hnd : self.Group.Nodup) :
    (self.Mode = 0 → ∀ i : Nat, self.Group[i]? = some f →
      (∀ m ∈ self.Group.drop (i + 1), (self.filterChanged f).objects.touched m = true) ∧
      (∀ m ∈ self.Group.take (i + 1),
        (self.filterChanged f).objects.touched m = self.objects.touched m) ∧
      (∀ m : ObjId, m ∉ self.Group →
        (self.filterChanged f).objects.touched m = self.objects.touched m)) ∧
    (self.Mode = 0 → f ∉ self.Group → self.filterChanged f = self) ∧
    (self.Mode = 1 → self.filterChanged f = self) := by
  refine ⟨?_, ?_, ?_⟩
  · intro hmode i hi
    have hmem : f ∈ self.Group := List.getElem?_mem hi
    have hempty : self.Group.isEmpty = false := by
      cases hg : self.Group with
      | nil => rw [hg] at hmem; simp at hmem
      | cons a l => rfl
    have hafter := FemPostPipeline.membersAfter_nodup f self.Group i hnd hi
    have htouched : ∀ m : ObjId, (self.filterChanged f).objects.touched m
        = (self.objects.touched m || decide (m ∈ self.Group.drop (i + 1))) := by
      intro m
      simp only [FemPostPipeline.filterChanged, hmode, hempty, if_true]
      rw [← hafter]
      simpa using FemPostPipeline.filterLoop_touched f self.Group false self.objects m
    refine ⟨?_, ?_, ?_⟩
    · intro m hm
      rw [htouched m]
      simp [hm]
    · intro m hm
      have hdisj := List.disjoint_take_drop hnd (Nat.le_refl (i + 1))
      have hnot : m ∉ self.Group.drop (i + 1) := fun h => hdisj hm h
      rw [htouched m]
      simp [hnot]
    · intro m hm
      have hnot : m ∉ self.Group.drop (i + 1) := fun h => hm (List.mem_of_mem_drop h)
      rw [htouched m]
      simp [hnot]
  · intro hmode hf
    unfold FemPostPipeline.filterChanged
    rw [FemPostPipeline.filterLoop_not_member f self.Group self.objects hf]
    rw [if_pos hmode]
    split <;> rfl
  · intro hmode
    simp [FemPostPipeline.filterChanged, hmode]

/-- C7, on the chain `[10, 11, 12]`: a change of filter 11 touches 12 and leaves 11 and 10 as
they were; a change of a filter outside the chain, or in Parallel mode, changes nothing. -/
theorem filterChanged_marks_members_after_witness :
    staleSerialChain.Group.Nodup ∧
    (staleSerialChain.filterChanged 11).objects.touched 12 = true ∧
    (staleSerialChain.filterChanged 11).objects.touched 11 = false ∧
    (staleSerialChain.filterChanged 11).objects.touched 10 = false ∧
    staleSerialChain.filterChanged 99 = staleSerialChain ∧
    ({ staleSerialChain with Mode := 1 } : FemPostPipeline).filterChanged 11
      = { staleSerialChain with Mode := 1 } :=
  have h := filterChanged_marks_members_after staleSerialChain 11 (by decide)
  ⟨by decide, (h.1 rfl 1 rfl).1 12 (by decide), (h.1 rfl 1 rfl).2.1 11 (by decide),
    (h.1 rfl 1 rfl).2.1 10 (by decide),
    (filterChanged_marks_members_after staleSerialChain 99 (by decide)).2.1 rfl (by decide),
    (filterChanged_marks_members_after { staleSerialChain with Mode := 1 } 11
      (by decide)).2.2 rfl⟩

/-! ## Dataset replacement and loading: lemmas -/

namespace FemPostPipeline

theorem recomputeChildren_Step (self : FemPostPipeline) :
    self.recomputeChildren.Step = self.Step := rfl

theorem onChangedData_Data {U : Type} (uops : UnitOps U) (self : FemPostPipeline) :
    (onChangedData uops self).Data = self.Data := by
  unfold onChangedData
  simp only [recomputeChildren]
  split <;> rfl

theorem onChangedData_source {U : Type} (uops : UnitOps U) (self : FemPostPipeline) :
    (onChangedData uops self).m_source_algorithm
      = { self.m_source_algorithm with m_data := self.Data } := by
  unfold onChangedData
  simp only [recomputeChildren]
  split <;> rfl

theorem onChangedData_Step {U : Type} (uops : UnitOps U) (self : FemPostPipeline) :
    (onChangedData uops self).Step
      = if self.previousLabel ≠ "" ∧ self.previousLabel ∈ stepLabels uops
            { self with
              m_source_algorithm := { self.m_source_algorithm with m_data := self.Data } }
        then ⟨⟨stepLabels uops
            { self with
              m_source_algorithm := { self.m_source_algorithm with m_data := self.Data } },
          ((stepLabels uops
            { self with
              m_source_algorithm := { self.m_source_algorithm with m_data := self.Data } }).indexOf
            self.previousLabel : Nat)⟩, false⟩
        else ⟨⟨stepLabels uops
            { self with
              m_source_algorithm := { self.m_source_algorithm with m_data := self.Data } }, 0⟩,
          false⟩ := by
  have hprev : previousLabel
      { self with m_source_algorithm := { self.m_source_algorithm with m_data := self.Data } }
      = self.previousLabel := rfl
  unfold onChangedData
  simp only [recomputeChildren_Step, hprev]
  generalize stepLabels uops
    { self with m_source_algorithm := { self.m_source_algorithm with m_data := self.Data } }
    = labels
  generalize self.previousLabel = val
  by_cases hc : val ≠ "" ∧ val ∈ labels
  · rw [if_pos hc, if_pos hc]
    simp [PropertyEnumeration.purgeTouched, PropertyEnumeration.setValue,
      PropertyEnumeration.setEnumeration, Enumeration.setEnums, Enumeration.setValue, hc.2]
  · rw [if_neg hc, if_neg hc]
    rfl

theorem loadLoop_valid (ops : FloatOps) (pairs : List (FemResultObject × ℚ)) :
    ∀ acc : List Block, (∀ p ∈ pairs, p.1.meshIsFemMeshObject = true) →
      loadLoop ops pairs acc
        = some (acc ++ pairs.map
            (fun p => (⟨p.1.id, some (DataArray.floatArray [ops.narrow p.2])⟩ : Block))) := by
  induction pairs with
  | nil => intro acc _; simp [loadLoop]
  | cons p rest ih =>
    intro acc hvalid
    obtain ⟨res, value⟩ := p
    have hp : res.meshIsFemMeshObject = true := hvalid (res, value) (List.mem_cons_self _ _)
    simp only [loadLoop, hp]
    rw [ih _ (fun q hq => hvalid q (List.mem_cons_of_mem _ hq))]
    simp

theorem stepLoop_of_firstTimeValues (blocks : List Block) (vals : List ℚ)
    (h : blocks.map Block.firstTimeValue = vals.map some) :
    FemStepSourceAlgorithm.stepLoop blocks 0 (List.replicate blocks.length 0) = vals := by
  have hlen : blocks.length = vals.length := by
    have := congrArg List.length h
    simpa using this
  have hgood : ∀ c ∈ blocks, c.firstTimeValue ≠ none := by
    intro c hc hnone
    have hmem : c.firstTimeValue ∈ blocks.map Block.firstTimeValue := List.mem_map_of_mem _ hc
    rw [h, hnone] at hmem
    simp at hmem
  apply List.ext_getElem?
  intro i
  rcases Nat.lt_or_ge i blocks.length with hi | hi
  · have hb : blocks[i]? = some blocks[i] := List.getElem?_eq_getElem hi
    have hstep := FemStepSourceAlgorithm.stepLoop_getElem_good blocks 0
      (List.replicate blocks.length 0) i blocks[i] hgood hb (by simpa using hi)
    rw [Nat.zero_add] at hstep
    rw [hstep]
    have hi2 : (blocks.map Block.firstTimeValue)[i]? = (vals.map some)[i]? := by rw [h]
    rw [List.getElem?_map, List.getElem?_map, hb] at hi2
    have hv : vals[i]? = some vals[i] := List.getElem?_eq_getElem (by omega)
    rw [hv] at hi2 ⊢
    simpa using hi2
  · rw [List.getElem?_eq_none (by rw [FemStepSourceAlgorithm.stepLoop_length]; simpa using hi)]
    rw [List.getElem?_eq_none (by omega)]

end FemPostPipeline

/-! ## Dataset replacement and loading: properties -/

theorem FemPostPipeline.previousLabel_of_selected (self : FemPostPipeline) (k : Nat)
    (label : String) (hidx : self.Step.value.index = (k : Int))
    (hlabel : self.Step.value.enums[k]? = some label) :
    self.previousLabel = label := by
  have hne : self.Step.value.enums.isEmpty = false := by
    cases he : self.Step.value.enums with
    | nil => rw [he] at hlabel; simp at hlabel
    | cons a l => rfl
  simp [FemPostPipeline.previousLabel, PropertyEnumeration.hasEnums, Enumeration.hasEnums,
    PropertyEnumeration.getValue, Enumeration.getInt, PropertyEnumeration.getValueAsString,
    Enumeration.getCStr, hidx, hne, hlabel]

theorem FemPostPipeline.previousLabel_of_unselected (self : FemPostPipeline)
    (h : self.Step.value.index < 0 ∨
      (self.Step.value.enums.length : Int) ≤ self.Step.value.index) :
    self.previousLabel = "" := by
  unfold FemPostPipeline.previousLabel
  split
  · rename_i hg
    simp only [PropertyEnumeration.getValue, Enumeration.getInt, Bool.and_eq_true,
      decide_eq_true_eq] at hg
    rcases h with h | h
    · omega
    · have hlen : self.Step.value.enums.length ≤ self.Step.value.index.toNat := by omega
      simp [PropertyEnumeration.getValueAsString, Enumeration.getCStr, hg.2,
        List.getElem?_eq_none hlen]
  · rfl

/-- C8: on dataset replacement the step labels become the newly built ones, and with `label`
the label selected in the prior state (entry `k` of the prior labels, `k` the prior index): when
`label` is non-empty and occurs among the new labels, the selection afterwards is the index of
`label` in the new label list (its first occurrence, whatever `k` was), and otherwise it is the
default index 0; it is 0 as well when the prior index selects no label. -/
theorem onChangedData_reselects_by_label {U : Type} (uops : UnitOps U)
    (self : FemPostPipeline) :
    (FemPostPipeline.onChanged uops Property.Data self).fault = none ∧
    (FemPostPipeline.onChanged uops Property.Data self).state.Step.value.enums
      = FemPostPipeline.stepLabels uops
          { self with m_source_algorithm := { self.m_source_algorithm with m_data := self.Data } } ∧
    (∀ (k : Nat) (label : String), self.Step.value.index = (k : Int) →
      self.Step.value.enums[k]? = some label →
      (FemPostPipeline.onChanged uops Property.Data self).state.Step.value.index
        = (if label ≠ "" ∧ label ∈
              (FemPostPipeline.onChanged uops Property.Data self).state.Step.value.enums
            then (((FemPostPipeline.onChanged uops Property.Data
              self).state.Step.value.enums.indexOf label : Nat) : Int)
            else 0)) ∧
    ((self.Step.value.index < 0 ∨
        (self.Step.value.enums.length : Int) ≤ self.Step.value.index) →
      (FemPostPipeline.onChanged uops Property.Data self).state.Step.value.index = 0) := by
  have hstep := FemPostPipeline.onChangedData_Step uops self
  have hrun : (FemPostPipeline.onChanged uops Property.Data self).state
      = FemPostPipeline.onChangedData uops self := rfl
  rw [hrun, hstep]
  generalize FemPostPipeline.stepLabels uops
    { self with m_source_algorithm := { self.m_source_algorithm with m_data := self.Data } }
    = labels
  refine ⟨rfl, ?_, ?_, ?_⟩
  · split <;> rfl
  · intro k label hidx hlabel
    rw [FemPostPipeline.previousLabel_of_selected self k label hidx hlabel]
    by_cases hc : label ≠ "" ∧ label ∈ labels
    · simp only [if_pos hc]
    · simp only [if_neg hc]
  · intro hnone
    rw [FemPostPipeline.previousLabel_of_unselected self hnone]
    simp

/-- C8, at a shifted index: the label "7/1 s", selected at index 0 before, is found at index 1
of the rebuilt labels "5/1 s", "7/1 s", and index 1 is selected afterwards. -/
theorem onChangedData_reselects_by_label_witness :
    shiftedLabelPipeline.Step.value.index = 0 ∧
    shiftedLabelPipeline.Step.value.enums[0]? = some "7/1 s" ∧
    (FemPostPipeline.onChanged UnitOps.text Property.Data
        shiftedLabelPipeline).state.Step.value.enums = ["5/1 s", "7/1 s"] ∧
    (FemPostPipeline.onChanged UnitOps.text Property.Data
        shiftedLabelPipeline).state.Step.value.index = 1 :=
  ⟨rfl, rfl, by decide,
    ((onChangedData_reselects_by_label UnitOps.text shiftedLabelPipeline).2.2.1 0 "7/1 s"
      rfl rfl).trans (by decide)⟩

/-- C9: when the results list and the values list differ in length, `load` writes the
length-mismatch error to the console and returns the pipeline unchanged (its `Data`, and with it
the step list and the selection, included). -/
theorem load_length_mismatch {U : Type} (ops : FloatOps) (uops : UnitOps U)
    (self : FemPostPipeline) (res : List FemResultObject) (values : List ℚ) (unit : U)
    (step_type : String) (hlen : res.length ≠ values.length) :
    FemPostPipeline.load ops uops self res values unit step_type
      = (self, ["Result values and step values have different length.\n"]) := by
  unfold FemPostPipeline.load
  rw [if_pos hlen]

/-- C9, on one result with no step value. -/
theorem load_length_mismatch_witness :
    [(⟨0, true⟩ : FemResultObject)].length ≠ ([] : List ℚ).length ∧
    FemPostPipeline.load FloatOps.ieee UnitOps.text staleSerialChain [⟨0, true⟩] [] "s" "time"
      = (staleSerialChain, ["Result values and step values have different length.\n"]) :=
  ⟨by decide,
    load_length_mismatch FloatOps.ieee UnitOps.text staleSerialChain [⟨0, true⟩] [] "s" "time"
      (by decide)⟩

/-- C10, as stated, fails for a step value that is not a single-precision number: the
"TimeValue" arrays are float arrays, so after loading one result at the double written `0.1`
(which is 3602879701896397 / 2 ^ 55, well inside the range of `float`) the step list holds the
binary32 number nearest to it, 13421773 / 2 ^ 27, and differs from the values passed in. -/
theorem load_step_value_rounded :
    roundBinary64 (3602879701896397 / 36028797018963968)
      = 3602879701896397 / 36028797018963968 ∧
    InBinary32Range (3602879701896397 / 36028797018963968) ∧
    (FemPostPipeline.load FloatOps.ieee UnitOps.text FemPostPipeline.initial
        [⟨0, true⟩] [3602879701896397 / 36028797018963968] "s" "time").1.getStepValues
      = [13421773 / 134217728] ∧
    (FemPostPipeline.load FloatOps.ieee UnitOps.text FemPostPipeline.initial
        [⟨0, true⟩] [3602879701896397 / 36028797018963968] "s" "time").1.getStepValues
      ≠ [3602879701896397 / 36028797018963968] := by
  refine ⟨by decide!, by unfold InBinary32Range; decide!, by decide!, by decide!⟩

theorem FemPostPipeline.load_valid {U : Type} (ops : FloatOps) (uops : UnitOps U)
    (self : FemPostPipeline) (res : List FemResultObject) (values : List ℚ) (unit : U)
    (step_type : String) (hlen : res.length = values.length)
    (hmesh : ∀ r ∈ res, r.meshIsFemMeshObject = true)
    (hunit : uops.ofString (uops.getString unit) = unit) :
    (FemPostPipeline.load ops uops self res values unit step_type).2 = [] ∧
    (FemPostPipeline.load ops uops self res values unit step_type).1.getStepValues
      = values.map ops.narrow ∧
    ((∀ v ∈ values, ops.narrow v = v) →
      (FemPostPipeline.load ops uops self res values unit step_type).1.getStepValues = values) ∧
    (FemPostPipeline.load ops uops self res values unit step_type).1.getStepNumber
      = values.length % 2 ^ 32 ∧
    ((FemPostPipeline.load ops uops self res values unit step_type).1.hasSteps = true
      ↔ 0 < values.length) ∧
    FemPostPipeline.getStepUnit uops
      (FemPostPipeline.load ops uops self res values unit step_type).1 = unit ∧
    (FemPostPipeline.load ops uops self res values unit step_type).1.getStepType = step_type := by
  have hpairs : ∀ p ∈ res.zip values, p.1.meshIsFemMeshObject = true := by
    intro p hp
    exact hmesh p.1 (List.of_mem_zip hp).1
  have hload : FemPostPipeline.load ops uops self res values unit step_type
      = (FemPostPipeline.setData uops self
          (DataObject.multiBlock
            ((res.zip values).map
              (fun p => (⟨p.1.id, some (DataArray.floatArray [ops.narrow p.2])⟩ : Block)))
            (some (AbstractArray.stringArray [step_type, uops.getString unit]))), []) := by
    unfold FemPostPipeline.load
    rw [if_neg (not_not.mpr hlen), FemPostPipeline.loadLoop_valid ops _ [] hpairs]
    simp
  have hsnd : (res.zip values).map Prod.snd = values :=
    List.map_snd_zip _ _ (le_of_eq hlen.symm)
  have hsteps : (FemPostPipeline.load ops uops self res values unit step_type).1.getStepValues
      = values.map ops.narrow := by
    rw [hload]
    simp only [FemPostPipeline.getStepValues, FemPostPipeline.setData,
      FemPostPipeline.onChangedData_source]
    rw [FemStepSourceAlgorithm.getStepValues_eq _ _ _ rfl]
    apply FemPostPipeline.stepLoop_of_firstTimeValues
    have hvals : values.map ops.narrow = (res.zip values).map (fun p => ops.narrow p.2) := by
      conv_lhs => rw [← hsnd]
      simp [Function.comp_def]
    rw [hvals]
    simp [Block.firstTimeValue, Function.comp_def]
  have hdata : (FemPostPipeline.load ops uops self res values unit step_type).1.Data
      = some (DataObject.multiBlock
          ((res.zip values).map
            (fun p => (⟨p.1.id, some (DataArray.floatArray [ops.narrow p.2])⟩ : Block)))
          (some (AbstractArray.stringArray [step_type, uops.getString unit]))) := by
    rw [hload]
    simp only [FemPostPipeline.setData, FemPostPipeline.onChangedData_Data]
  refine ⟨by rw [hload], hsteps, ?_, ?_, ?_, ?_, ?_⟩
  · intro hexact
    rw [hsteps]
    calc values.map ops.narrow = values.map id := List.map_congr_left hexact
      _ = values := List.map_id _
  · simp [FemPostPipeline.getStepNumber, hsteps]
  · unfold FemPostPipeline.hasSteps
    have h2 : (FemPostPipeline.load ops uops self res values unit step_type).1.m_source_algorithm.getStepValues
        = values.map ops.narrow := hsteps
    rw [h2]
    cases values <;> simp
  · simp [FemPostPipeline.getStepUnit, hdata, hunit]
  · simp [FemPostPipeline.getStepType, hdata]

/-- C10, amended: for results and values of equal length `n < 2 ^ 32` whose results all carry a
valid mesh and whose values are in the range of finite `float`s, after `load`: `getStepValues()`
is `values` with each value converted to single precision (IEEE rounding to nearest), in the same
order, so it is `values` itself when every value is a single-precision number; `getStepNumber()`
is `n`, `hasSteps()` holds iff `n > 0`, `getStepType()` is the step type and `getStepUnit()` is
the unit, given that `Base::Unit` reads back the text it prints for it; no error is written. -/
theorem load_installs_steps {U : Type} (uops : UnitOps U)
    (self : FemPostPipeline) (res : List FemResultObject) (values : List ℚ) (unit : U)
    (step_type : String) (hlen : res.length = values.length)
    (hmesh : ∀ r ∈ res, r.meshIsFemMeshObject = true)
    (hunit : uops.ofString (uops.getString unit) = unit)
    (_hrange : ∀ v ∈ values, InBinary32Range v)
    (hcount : values.length < 2 ^ 32) :
    (FemPostPipeline.load FloatOps.ieee uops self res values unit step_type).2 = [] ∧
    (FemPostPipeline.load FloatOps.ieee uops self res values unit step_type).1.getStepValues
      = values.map narrowBinary32 ∧
    ((∀ v ∈ values, narrowBinary32 v = v) →
      (FemPostPipeline.load FloatOps.ieee uops self res values unit step_type).1.getStepValues
        = values) ∧
    (FemPostPipeline.load FloatOps.ieee uops self res values unit step_type).1.getStepNumber
      = values.length ∧
    ((FemPostPipeline.load FloatOps.ieee uops self res values unit step_type).1.hasSteps = true
      ↔ 0 < values.length) ∧
    FemPostPipeline.getStepUnit uops
      (FemPostPipeline.load FloatOps.ieee uops self res values unit step_type).1 = unit ∧
    (FemPostPipeline.load FloatOps.ieee uops self res values unit step_type).1.getStepType
      = step_type := by
  obtain ⟨h1, h2, h3, h4, h5, h6, h7⟩ :=
    FemPostPipeline.load_valid FloatOps.ieee uops self res values unit step_type hlen hmesh hunit
  refine ⟨h1, h2, h3, ?_, h5, h6, h7⟩
  rw [h4]
  exact Nat.mod_eq_of_lt hcount

/-- C10, amended, at the example of the specification: three results at 0, 1 and 2 with unit
"s" and type "time" give `hasSteps()`, three steps, the step values 0, 1, 2, unit "s" and
type "time". -/
theorem load_installs_steps_witness :
    [(⟨0, true⟩ : FemResultObject), ⟨1, true⟩, ⟨2, true⟩].length = [(0 : ℚ), 1, 2].length ∧
    (∀ r ∈ [(⟨0, true⟩ : FemResultObject), ⟨1, true⟩, ⟨2, true⟩], r.meshIsFemMeshObject = true) ∧
    UnitOps.text.ofString (UnitOps.text.getString "s") = "s" ∧
    (∀ v ∈ [(0 : ℚ), 1, 2], InBinary32Range v) ∧
    (∀ v ∈ [(0 : ℚ), 1, 2], narrowBinary32 v = v) ∧
    (FemPostPipeline.load FloatOps.ieee UnitOps.text FemPostPipeline.initial
        [⟨0, true⟩, ⟨1, true⟩, ⟨2, true⟩] [0, 1, 2] "s" "time").1.getStepValues = [0, 1, 2] ∧
    (FemPostPipeline.load FloatOps.ieee UnitOps.text FemPostPipeline.initial
        [⟨0, true⟩, ⟨1, true⟩, ⟨2, true⟩] [0, 1, 2] "s" "time").1.getStepNumber = 3 ∧
    (FemPostPipeline.load FloatOps.ieee UnitOps.text FemPostPipeline.initial
        [⟨0, true⟩, ⟨1, true⟩, ⟨2, true⟩] [0, 1, 2] "s" "time").1.hasSteps = true ∧
    FemPostPipeline.getStepUnit UnitOps.text
      (FemPostPipeline.load FloatOps.ieee UnitOps.text FemPostPipeline.initial
        [⟨0, true⟩, ⟨1, true⟩, ⟨2, true⟩] [0, 1, 2] "s" "time").1 = "s" ∧
    (FemPostPipeline.load FloatOps.ieee UnitOps.text FemPostPipeline.initial
        [⟨0, true⟩, ⟨1, true⟩, ⟨2, true⟩] [0, 1, 2] "s" "time").1.getStepType = "time" := by
  have hrange : ∀ v ∈ [(0 : ℚ), 1, 2], InBinary32Range v := by
    intro v hv
    simp only [List.mem_cons, List.mem_singleton, List.not_mem_nil, or_false] at hv
    rcases hv with h | h | h <;> subst h <;> unfold InBinary32Range <;> decide!
  have hfloat : ∀ v ∈ [(0 : ℚ), 1, 2], narrowBinary32 v = v := by
    intro v hv
    simp only [List.mem_cons, List.mem_singleton, List.not_mem_nil, or_false] at hv
    rcases hv with h | h | h <;> subst h <;> decide!
  have h := load_installs_steps UnitOps.text FemPostPipeline.initial
    [⟨0, true⟩, ⟨1, true⟩, ⟨2, true⟩] [0, 1, 2] "s" "time" rfl (by decide) rfl hrange
    (by decide)
  exact ⟨rfl, by decide, rfl, hrange, hfloat, h.2.2.1 hfloat, h.2.2.2.1,
    h.2.2.2.2.1.mpr (by decide), h.2.2.2.2.2.1, h.2.2.2.2.2.2⟩

/-! ## Step selection: lemmas -/

theorem nodup_index_unique {α : Type} (chain : List α) (hnd : chain.Nodup) (i j : Nat) (x : α)
    (hi : chain[i]? = some x) (hj : chain[j]? = some x) : i = j := by
  obtain ⟨hil, hix⟩ := List.getElem?_eq_some_iff.mp hi
  obtain ⟨hjl, hjx⟩ := List.getElem?_eq_some_iff.mp hj
  exact (List.Nodup.getElem_inj_iff hnd).mp (hix.trans hjx.symm)

theorem toSizeT_of_nonneg (v : Int) (h0 : 0 ≤ v) (h : v < 2 ^ 64) : toSizeT v = v.toNat := by
  unfold toSizeT
  rw [Int.emod_eq_of_lt h0 h]

theorem toSizeT_of_neg (v : Int) (hneg : v < 0) (hlo : -(2 ^ 63) ≤ v) : 2 ^ 63 ≤ toSizeT v := by
  unfold toSizeT
  have h1 : v % 2 ^ 64 = v + 2 ^ 64 := by
    rw [← Int.add_emod_self]
    exact Int.emod_eq_of_lt (by omega) (by omega)
  rw [h1]
  omega

/-- C12: for a non-empty chain and a Mode value other than 0 and 1, the rewiring throws
`Base::ValueError` in its first iteration, right after it removed the connections of the first
node: the state reached is the prior one with that node's inputs cleared, so no node has a
connection it did not have before (no node is connected). -/
theorem unknown_mode_rewiring_throws {U : Type} (uops : UnitOps U) (self : FemPostPipeline)
    (prop : Property) (hprop : prop = Property.Group ∨ prop = Property.Mode)
    (hmode0 : self.Mode ≠ 0) (hmode1 : self.Mode ≠ 1) (hne : self.Group ≠ []) :
    (FemPostPipeline.onChanged uops prop self).fault
      = some (Fault.ValueError "Unknown Mode set for Pipeline") ∧
    (∀ (n : ObjId) (p : Port),
      p ∈ (FemPostPipeline.onChanged uops prop self).state.objects.inputs n →
      p ∈ self.objects.inputs n) ∧
    (∀ (first : ObjId) (rest : List ObjId), self.Group = first :: rest →
      (FemPostPipeline.onChanged uops prop self).state
        = { self with objects := self.objects.RemoveAllInputConnections first }) := by
  obtain ⟨first, rest, hg⟩ := List.exists_cons_of_ne_nil hne
  have hrun : FemPostPipeline.onChanged uops prop self
      = ⟨{ self with objects := self.objects.RemoveAllInputConnections first },
          some (Fault.ValueError "Unknown Mode set for Pipeline")⟩ := by
    rcases hprop with h | h <;> subst h <;>
      simp [FemPostPipeline.onChanged, FemPostPipeline.onChangedGroupOrMode, hg,
        FemPostPipeline.rewireLoop, hmode0, hmode1]
  rw [hrun]
  refine ⟨rfl, ?_, ?_⟩
  · intro n p hp
    by_cases hn : n = first
    · subst hn
      simp [PostObjects.RemoveAllInputConnections] at hp
    · simpa [PostObjects.RemoveAllInputConnections, Function.update_noteq hn] using hp
  · intro f r hfr
    have hf : first = f := (List.cons.inj (hg.symm.trans hfr)).1
    rw [hf]

/-- C12, on the chain `[10, 11, 12]` with stale connections and Mode 2: the fault is thrown, the
first node is left without connections and the others keep their stale ones. -/
theorem unknown_mode_rewiring_throws_witness :
    ({ staleSerialChain with Mode := 2 } : FemPostPipeline).Mode ≠ 0 ∧
    ({ staleSerialChain with Mode := 2 } : FemPostPipeline).Mode ≠ 1 ∧
    ({ staleSerialChain with Mode := 2 } : FemPostPipeline).Group ≠ [] ∧
    (FemPostPipeline.onChanged UnitOps.text Property.Mode
        { staleSerialChain with Mode := 2 }).fault
      = some (Fault.ValueError "Unknown Mode set for Pipeline") ∧
    (FemPostPipeline.onChanged UnitOps.text Property.Mode
        { staleSerialChain with Mode := 2 }).state
      = { staleSerialChain with
          Mode := 2
          objects := staleSerialChain.objects.RemoveAllInputConnections 10 } :=
  have h := unknown_mode_rewiring_throws UnitOps.text { staleSerialChain with Mode := 2 }
    Property.Mode (Or.inr rfl) (by decide) (by decide) (by decide)
  ⟨by decide, by decide, by decide, h.1, h.2.2 10 [11, 12] rfl⟩

/-- C13: for an empty chain and every Mode value, the handler for a membership or topology
change returns at once: no fault, and the whole state (connections, touched flags, pipeline
fields) is the prior one. -/
theorem empty_chain_rewiring_is_noop {U : Type} (uops : UnitOps U) (self : FemPostPipeline)
    (prop : Property) (hprop : prop = Property.Group ∨ prop = Property.Mode)
    (hempty : self.Group = []) :
    (FemPostPipeline.onChanged uops prop self).fault = none ∧
    (FemPostPipeline.onChanged uops prop self).state = self := by
  rcases hprop with h | h <;> subst h <;>
    simp [FemPostPipeline.onChanged, FemPostPipeline.onChangedGroupOrMode, hempty]

/-- C13, on a pipeline without members whose Mode is 7. -/
theorem empty_chain_rewiring_is_noop_witness :
    ({ FemPostPipeline.initial with Mode := 7 } : FemPostPipeline).Group = [] ∧
    (FemPostPipeline.onChanged UnitOps.text Property.Group
        { FemPostPipeline.initial with Mode := 7 }).fault = none ∧
    (FemPostPipeline.onChanged UnitOps.text Property.Group
        { FemPostPipeline.initial with Mode := 7 }).state
      = { FemPostPipeline.initial with Mode := 7 } :=
  have h := empty_chain_rewiring_is_noop UnitOps.text { FemPostPipeline.initial with Mode := 7 }
    Property.Group (Or.inl rfl) rfl
  ⟨rfl, h.1, h.2⟩

/-! ## Step selection and propagation to the chain -/

/-- C14, as stated, fails for an index beyond the step list: with three steps, the index 5
selected and the time 2 requested before, the handler ends without a fault and pushes no time;
the requested time stays 2 and is not the fallback 0. -/
theorem step_change_beyond_list_pushes_nothing :
    beyondLastStepPipeline.getStepValues.length = 3 ∧
    beyondLastStepPipeline.Step.getValue = 5 ∧
    (FemPostPipeline.onChanged UnitOps.text Property.Step beyondLastStepPipeline).fault = none ∧
    (FemPostPipeline.onChanged UnitOps.text Property.Step
        beyondLastStepPipeline).state.m_source_algorithm.UPDATE_TIME_STEP = some 2 ∧
    (FemPostPipeline.onChanged UnitOps.text Property.Step
        beyondLastStepPipeline).state.m_source_algorithm.UPDATE_TIME_STEP ≠ some 0 := by
  refine ⟨rfl, rfl, rfl, rfl, ?_⟩
  have h : (FemPostPipeline.onChanged UnitOps.text Property.Step
      beyondLastStepPipeline).state.m_source_algorithm.UPDATE_TIME_STEP = some 2 := rfl
  rw [h]
  norm_num

/-- C14, amended: on a step-selection change with step list `s` and selected index `i`, the time
pushed into the source is `s[i]` when `0 ≤ i < length s`; when `s` is empty or `i ≥ length s`
no time is pushed and the source keeps the time requested before. -/
theorem step_change_pushes_selected_time {U : Type} (uops : UnitOps U)
    (self : FemPostPipeline) :
    (∀ i : Nat, self.Step.getValue = (i : Int) → i < self.getStepValues.length →
      self.getStepValues.length < 2 ^ 64 →
      (FemPostPipeline.onChanged uops Property.Step self).fault = none ∧
      (FemPostPipeline.onChanged uops Property.Step self).state.m_source_algorithm.UPDATE_TIME_STEP
        = self.getStepValues[i]? ∧
      (FemPostPipeline.onChanged uops Property.Step self).state.m_source_algorithm.m_data
        = self.m_source_algorithm.m_data) ∧
    ((self.getStepValues = [] ∨ (self.getStepValues.length : Int) ≤ self.Step.getValue) →
      (FemPostPipeline.onChanged uops Property.Step self).fault = none ∧
      (FemPostPipeline.onChanged uops Property.Step self).state.m_source_algorithm
        = self.m_source_algorithm) := by
  constructor
  · intro i hsel hi hsize
    have hidx : toSizeT self.Step.getValue = i := by
      rw [hsel, toSizeT_of_nonneg _ (by omega) (by omega)]
      simp
    have hsi : self.getStepValues[i]? = some self.getStepValues[i] :=
      List.getElem?_eq_getElem hi
    have hguard : (!self.getStepValues.isEmpty &&
        decide (self.Step.getValue < (self.getStepValues.length : Int))) = true := by
      have hne : self.getStepValues.isEmpty = false := by
        cases hs : self.getStepValues with
        | nil => rw [hs] at hi; simp at hi
        | cons a l => rfl
      rw [hne, hsel]
      simp
      omega
    have hrun : FemPostPipeline.onChanged uops Property.Step self
        = ⟨FemPostPipeline.recomputeChildren
            { self with
              m_source_algorithm :=
                { self.m_source_algorithm with UPDATE_TIME_STEP := some self.getStepValues[i] } },
            none⟩ := by
      simp only [FemPostPipeline.onChanged, FemPostPipeline.onChangedStep]
      rw [if_pos hguard, hidx, hsi]
    rw [hrun]
    exact ⟨rfl, hsi.symm, rfl⟩
  · intro hout
    have hguard : (!self.getStepValues.isEmpty &&
        decide (self.Step.getValue < (self.getStepValues.length : Int))) = false := by
      rcases hout with h | h
      · rw [h]; rfl
      · simp
        intro _
        omega
    have hrun : FemPostPipeline.onChanged uops Property.Step self
        = ⟨FemPostPipeline.recomputeChildren self, none⟩ := by
      simp only [FemPostPipeline.onChanged, FemPostPipeline.onChangedStep]
      rw [hguard]
      rfl
    rw [hrun]
    exact ⟨rfl, rfl⟩

/-- C14, amended, with the steps 0, 1, 2: the index 1 pushes the time 1; the index 5 pushes
nothing and the source is as before. -/
theorem step_change_pushes_selected_time_witness :
    ((FemPostPipeline.onChanged UnitOps.text Property.Step threeStepPipeline).fault = none ∧
      (FemPostPipeline.onChanged UnitOps.text Property.Step
          threeStepPipeline).state.m_source_algorithm.UPDATE_TIME_STEP
        = threeStepPipeline.getStepValues[1]? ∧
      (FemPostPipeline.onChanged UnitOps.text Property.Step
          threeStepPipeline).state.m_source_algorithm.m_data
        = threeStepPipeline.m_source_algorithm.m_data) ∧
    ((FemPostPipeline.onChanged UnitOps.text Property.Step beyondLastStepPipeline).fault = none ∧
      (FemPostPipeline.onChanged UnitOps.text Property.Step
          beyondLastStepPipeline).state.m_source_algorithm
        = beyondLastStepPipeline.m_source_algorithm) :=
  ⟨(step_change_pushes_selected_time UnitOps.text threeStepPipeline).1 1 rfl (by decide)
      (by decide),
    (step_change_pushes_selected_time UnitOps.text beyondLastStepPipeline).2
      (Or.inr (by decide))⟩

/-- C18: with three steps and the selected index -1, the guard of the step-selection handler
(`Step.getValue() < long(steps.size())`, a signed comparison) lets the index through and the
handler reads `steps[-1]`, that is element `2 ^ 64 - 1` of a vector of 3 elements;
`recomputeChildren`, whose guard compares as unsigned numbers, does not read there and uses 0. -/
theorem step_change_negative_index_reads_out_of_range :
    negativeStepPipeline.getStepValues.length = 3 ∧
    negativeStepPipeline.Step.getValue = -1 ∧
    (FemPostPipeline.onChanged UnitOps.text Property.Step negativeStepPipeline).fault
      = some (Fault.outOfRange 18446744073709551615 3) ∧
    negativeStepPipeline.currentStep = 0 := by
  refine ⟨rfl, rfl, ?_, ?_⟩
  · decide
  · rfl

namespace FemPostPipeline

theorem recomputeLoop_spec (step : ℚ) (chain : List ObjId) :
    ∀ objects : PostObjects,
      (recomputeLoop step chain objects).isFilter = objects.isFilter ∧
      (recomputeLoop step chain objects).inputs = objects.inputs ∧
      (∀ m : ObjId, (recomputeLoop step chain objects).touched m
        = (objects.touched m || decide (m ∈ chain))) ∧
      (∀ m : ObjId, (recomputeLoop step chain objects).Step m
        = if m ∈ chain ∧ objects.isFilter m = true then step else objects.Step m) := by
  induction chain with
  | nil => intro objects; simp [recomputeLoop]
  | cons c rest ih =>
    intro objects
    by_cases hc : objects.isFilter c = true
    · have hstep : recomputeLoop step (c :: rest) objects
          = recomputeLoop step rest ((objects.touch c).setStep c step) := by
        have hf : (objects.touch c).isFilter c = true := hc
        simp [recomputeLoop, hf]
      rw [hstep]
      obtain ⟨h1, h2, h3, h4⟩ := ih ((objects.touch c).setStep c step)
      refine ⟨h1, h2, ?_, ?_⟩
      · intro m
        rw [h3 m]
        by_cases hm : m = c
        · subst hm; simp [PostObjects.touch, PostObjects.setStep]
        · simp [PostObjects.touch, PostObjects.setStep, Function.update_noteq hm, hm]
      · intro m
        rw [h4 m]
        by_cases hm : m = c
        · subst hm; simp [PostObjects.touch, PostObjects.setStep, hc]
        · simp [PostObjects.touch, PostObjects.setStep, Function.update_noteq hm, hm]
    · have hstep : recomputeLoop step (c :: rest) objects
          = recomputeLoop step rest (objects.touch c) := by
        have hf : (objects.touch c).isFilter c = false := by
          simpa [PostObjects.touch] using hc
        simp [recomputeLoop, hf]
      rw [hstep]
      obtain ⟨h1, h2, h3, h4⟩ := ih (objects.touch c)
      refine ⟨h1, h2, ?_, ?_⟩
      · intro m
        rw [h3 m]
        by_cases hm : m = c
        · subst hm; simp [PostObjects.touch]
        · simp [PostObjects.touch, Function.update_noteq hm, hm]
      · intro m
        rw [h4 m]
        by_cases hm : m = c
        · subst hm; simp [PostObjects.touch, hc]
        · simp [PostObjects.touch, hm]

theorem currentStep_eq_selectedStepOrZero (self : FemPostPipeline) (h : MachineRanges self) :
    self.currentStep = selectedStepOrZero self := by
  obtain ⟨hlo, hhi, hlen⟩ := h
  unfold currentStep selectedStepOrZero
  by_cases hneg : self.Step.getValue < 0
  · have hbig := toSizeT_of_neg _ hneg hlo
    have h1 : ¬ (toSizeT self.Step.getValue < self.getStepValues.length) := by omega
    have h2 : ¬ (0 ≤ self.Step.getValue ∧
        self.Step.getValue < (self.getStepValues.length : Int)) := by omega
    simp [h1, h2]
  · have h0 : 0 ≤ self.Step.getValue := by omega
    have hidx := toSizeT_of_nonneg _ h0 (by omega)
    rw [hidx]
    by_cases hin : self.Step.getValue < (self.getStepValues.length : Int)
    · have h1 : self.Step.getValue.toNat < self.getStepValues.length := by omega
      have hne : self.getStepValues.isEmpty = false := by
        cases hs : self.getStepValues with
        | nil => rw [hs] at h1; simp at h1
        | cons a l => rfl
      simp [h1, h0, hin, hne]
    · have h1 : ¬ (self.Step.getValue.toNat < self.getStepValues.length) := by omega
      simp [h1, hin]

theorem recomputeChildren_spec (self : FemPostPipeline) (h : MachineRanges self) :
    ∀ m ∈ self.Group, self.recomputeChildren.objects.touched m = true ∧
      (self.objects.isFilter m = true →
        self.recomputeChildren.objects.Step m = selectedStepOrZero self) := by
  intro m hm
  obtain ⟨_, _, h3, h4⟩ := recomputeLoop_spec self.currentStep self.Group self.objects
  constructor
  · show (recomputeLoop self.currentStep self.Group self.objects).touched m = true
    rw [h3 m]
    simp [hm]
  · intro hf
    show (recomputeLoop self.currentStep self.Group self.objects).Step m = _
    rw [h4 m, currentStep_eq_selectedStepOrZero self h]
    simp [hm, hf]

theorem onChangedData_eq_recomputeChildren {U : Type} (uops : UnitOps U)
    (self : FemPostPipeline) :
    onChangedData uops self
      = recomputeChildren { onChangedData uops self with objects := self.objects } := by
  unfold onChangedData
  simp only [recomputeChildren]
  split <;> rfl

theorem onChangedStep_eq_recomputeChildren (self : FemPostPipeline)
    (hfault : (onChangedStep self).fault = none) :
    (onChangedStep self).state
      = recomputeChildren { (onChangedStep self).state with objects := self.objects } := by
  have key : onChangedStep self
      = if (!self.getStepValues.isEmpty &&
            decide (self.Step.getValue < (self.getStepValues.length : Int))) = true then
          match self.getStepValues[toSizeT self.Step.getValue]? with
          | some time =>
            ⟨recomputeChildren
              { self with
                m_source_algorithm :=
                  { self.m_source_algorithm with UPDATE_TIME_STEP := some time } }, none⟩
          | none =>
            ⟨self, some (Fault.outOfRange (toSizeT self.Step.getValue)
              self.getStepValues.length)⟩
        else ⟨recomputeChildren self, none⟩ := rfl
  rw [key] at hfault ⊢
  by_cases hg : (!self.getStepValues.isEmpty &&
      decide (self.Step.getValue < (self.getStepValues.length : Int))) = true
  · rw [if_pos hg] at hfault ⊢
    cases hread : self.getStepValues[toSizeT self.Step.getValue]? with
    | none =>
      rw [hread] at hfault
      exact Option.noConfusion hfault
    | some time => rfl
  · rw [if_neg hg]
    rfl

theorem onChangedStep_Group (self : FemPostPipeline) :
    (onChangedStep self).state.Group = self.Group := by
  have key : onChangedStep self
      = if (!self.getStepValues.isEmpty &&
            decide (self.Step.getValue < (self.getStepValues.length : Int))) = true then
          match self.getStepValues[toSizeT self.Step.getValue]? with
          | some time =>
            ⟨recomputeChildren
              { self with
                m_source_algorithm :=
                  { self.m_source_algorithm with UPDATE_TIME_STEP := some time } }, none⟩
          | none =>
            ⟨self, some (Fault.outOfRange (toSizeT self.Step.getValue)
              self.getStepValues.length)⟩
        else ⟨recomputeChildren self, none⟩ := rfl
  rw [key]
  split
  · split <;> rfl
  · rfl

end FemPostPipeline

/-- C15: on dataset replacement and on step-selection change (when the handler reaches it),
the handler ends with `recomputeChildren`, which touches every chain member and sets the `Step`
of every chain member that is a filter to `s[i]` when the selected index `i` satisfies
`0 ≤ i < length s` and to 0 otherwise, `s` and `i` being the step list and the selection of the
resulting state; whatever the mode and the chain. The index is a `long` and the list is shorter
than `2 ^ 63`. -/
theorem recomputeChildren_propagates_step {U : Type} (uops : UnitOps U)
    (self : FemPostPipeline) (prop : Property)
    (hprop : prop = Property.Data ∨ prop = Property.Step)
    (hfault : (FemPostPipeline.onChanged uops prop self).fault = none)
    (hrange : MachineRanges (FemPostPipeline.onChanged uops prop self).state) :
    (FemPostPipeline.onChanged uops prop self).state
      = FemPostPipeline.recomputeChildren
          { (FemPostPipeline.onChanged uops prop self).state with objects := self.objects } ∧
    (FemPostPipeline.onChanged uops prop self).state.Group = self.Group ∧
    ∀ m ∈ self.Group,
      (FemPostPipeline.onChanged uops prop self).state.objects.touched m = true ∧
      (self.objects.isFilter m = true →
        (FemPostPipeline.onChanged uops prop self).state.objects.Step m
          = selectedStepOrZero (FemPostPipeline.onChanged uops prop self).state) := by
  have heq : (FemPostPipeline.onChanged uops prop self).state
      = FemPostPipeline.recomputeChildren
          { (FemPostPipeline.onChanged uops prop self).state with objects := self.objects } := by
    rcases hprop with h | h
    · subst h
      exact FemPostPipeline.onChangedData_eq_recomputeChildren uops self
    · subst h
      exact FemPostPipeline.onChangedStep_eq_recomputeChildren self hfault
  have hgroup : (FemPostPipeline.onChanged uops prop self).state.Group = self.Group := by
    rcases hprop with h | h
    · subst h
      simp only [FemPostPipeline.onChanged, FemPostPipeline.onChangedData,
        FemPostPipeline.recomputeChildren]
      split <;> rfl
    · subst h
      exact FemPostPipeline.onChangedStep_Group self
  refine ⟨heq, hgroup, ?_⟩
  intro m hm
  have hspec := FemPostPipeline.recomputeChildren_spec
    { (FemPostPipeline.onChanged uops prop self).state with objects := self.objects } hrange m
    (by rw [← hgroup] at hm; exact hm)
  rw [← heq] at hspec
  exact hspec

/-- C15, with the steps 0, 1, 2 and the chain `[10, 11, 12]` in which 11 is not a filter: after a
step-selection change to index 1 every member is touched and the filters 10 and 12 have the
step 1; with the index 5 the filter 10 gets 0. -/
theorem recomputeChildren_propagates_step_witness :
    MachineRanges (FemPostPipeline.onChanged UnitOps.text Property.Step threeStepPipeline).state ∧
    (FemPostPipeline.onChanged UnitOps.text Property.Step
        threeStepPipeline).state.objects.touched 10 = true ∧
    (FemPostPipeline.onChanged UnitOps.text Property.Step
        threeStepPipeline).state.objects.touched 11 = true ∧
    (FemPostPipeline.onChanged UnitOps.text Property.Step
        threeStepPipeline).state.objects.touched 12 = true ∧
    (FemPostPipeline.onChanged UnitOps.text Property.Step
        threeStepPipeline).state.objects.Step 10 = 1 ∧
    (FemPostPipeline.onChanged UnitOps.text Property.Step
        threeStepPipeline).state.objects.Step 12 = 1 ∧
    (FemPostPipeline.onChanged UnitOps.text Property.Step
        beyondLastStepPipeline).state.objects.Step 10 = 0 :=
  have hr : MachineRanges
      (FemPostPipeline.onChanged UnitOps.text Property.Step threeStepPipeline).state :=
    ⟨by decide, by decide, by decide⟩
  have hr2 : MachineRanges
      (FemPostPipeline.onChanged UnitOps.text Property.Step beyondLastStepPipeline).state :=
    ⟨by decide, by decide, by decide⟩
  have h := recomputeChildren_propagates_step UnitOps.text threeStepPipeline Property.Step
    (Or.inr rfl) rfl hr
  have h2 := recomputeChildren_propagates_step UnitOps.text beyondLastStepPipeline Property.Step
    (Or.inr rfl) rfl hr2
  ⟨hr, (h.2.2 10 (by decide)).1, (h.2.2 11 (by decide)).1, (h.2.2 12 (by decide)).1,
    (h.2.2 10 (by decide)).2 rfl, (h.2.2 12 (by decide)).2 rfl,
    (h2.2.2 10 (by decide)).2 rfl⟩

/-- C16: on dataset replacement the rebuilt step labels are the single label
"No steps available" when the step list (of the new dataset) is empty, and otherwise one label
per step in step order, label `k` being the user string of the quantity of step `k` in the step
unit; so there are as many labels as steps. -/
theorem onChangedData_rebuilds_labels {U : Type} (uops : UnitOps U) (self : FemPostPipeline) :
    (FemPostPipeline.onChanged uops Property.Data self).state.Step.value.enums
      = (if (FemPostPipeline.onChanged uops Property.Data self).state.getStepValues.isEmpty
          then ["No steps available"]
          else (FemPostPipeline.onChanged uops Property.Data self).state.getStepValues.map
            (fun step => uops.getUserString step
              (FemPostPipeline.getStepUnit uops
                (FemPostPipeline.onChanged uops Property.Data self).state))) ∧
    (FemPostPipeline.onChanged uops Property.Data self).state.Step.value.enums.length
      = (if (FemPostPipeline.onChanged uops Property.Data self).state.getStepValues.isEmpty
          then 1
          else (FemPostPipeline.onChanged uops Property.Data self).state.getStepValues.length) := by
  have hrun : (FemPostPipeline.onChanged uops Property.Data self).state
      = FemPostPipeline.onChangedData uops self := rfl
  have hsteps : (FemPostPipeline.onChangedData uops self).getStepValues
      = FemStepSourceAlgorithm.getStepValues
          { self.m_source_algorithm with m_data := self.Data } := by
    unfold FemPostPipeline.getStepValues
    rw [FemPostPipeline.onChangedData_source]
  have hunit : FemPostPipeline.getStepUnit uops (FemPostPipeline.onChangedData uops self)
      = FemPostPipeline.getStepUnit uops
          { self with
            m_source_algorithm := { self.m_source_algorithm with m_data := self.Data } } := by
    unfold FemPostPipeline.getStepUnit
    rw [FemPostPipeline.onChangedData_Data]
  have henums : (FemPostPipeline.onChangedData uops self).Step.value.enums
      = FemPostPipeline.stepLabels uops
          { self with
            m_source_algorithm := { self.m_source_algorithm with m_data := self.Data } } := by
    rw [FemPostPipeline.onChangedData_Step]
    split <;> rfl
  rw [hrun, henums, hsteps, hunit]
  unfold FemPostPipeline.stepLabels
  constructor
  · rfl
  · dsimp only
    split <;> simp

/-- C17: `canRead` holds exactly when `hasExtension` holds for one of vtk, vtp, vts, vtr, vti,
vtu, pvtu; `read` throws iff the file is not readable (then the exception carries the file) or
`canRead` is false (then the exception is the unknown-extension one); a readable file that
`canRead` accepts is passed to `readXMLFile` for one of the reader classes. -/
theorem canRead_and_read_agree (File : FileInfo) :
    (FemPostPipeline.canRead File = true
      ↔ ∃ e ∈ recognizedExtensions, File.hasExtension e = true) ∧
    ((FemPostPipeline.read File).isFault = true
      ↔ (File.isReadable = false ∨ FemPostPipeline.canRead File = false)) ∧
    (File.isReadable = false →
      FemPostPipeline.read File
        = ReadResult.FileException "File to load not existing or not readable" (some File)) ∧
    (File.isReadable = true → FemPostPipeline.canRead File = false →
      FemPostPipeline.read File = ReadResult.FileException "Unknown extension" none) ∧
    (File.isReadable = true → FemPostPipeline.canRead File = true →
      ∃ reader : Reader, FemPostPipeline.read File
        = ReadResult.readXMLFile reader File.filePath) := by
  refine ⟨?_, ?_, ?_, ?_, ?_⟩
  · simp [FemPostPipeline.canRead, recognizedExtensions]
  · unfold FemPostPipeline.canRead FemPostPipeline.read
    simp only [List.any_cons, List.any_nil]
    generalize File.hasExtension "vtk" = b1
    generalize File.hasExtension "vtp" = b2
    generalize File.hasExtension "vts" = b3
    generalize File.hasExtension "vtr" = b4
    generalize File.hasExtension "vti" = b5
    generalize File.hasExtension "vtu" = b6
    generalize File.hasExtension "pvtu" = b7
    generalize File.isReadable = r
    cases r <;> cases b1 <;> cases b2 <;> cases b3 <;> cases b4 <;> cases b5 <;> cases b6 <;>
      cases b7 <;> simp [ReadResult.isFault]
  · intro hr
    simp [FemPostPipeline.read, hr]
  · intro hr hc
    simp only [FemPostPipeline.canRead, List.any_cons, List.any_nil, Bool.or_false,
      Bool.or_eq_false_iff] at hc
    obtain ⟨h1, h2, h3, h4, h5, h6, h7⟩ := hc
    simp [FemPostPipeline.read, hr, h1, h2, h3, h4, h5, h6, h7]
  · intro hr hc
    unfold FemPostPipeline.canRead at hc
    unfold FemPostPipeline.read
    simp only [List.any_cons, List.any_nil] at hc
    revert hc
    generalize File.hasExtension "vtk" = b1
    generalize File.hasExtension "vtp" = b2
    generalize File.hasExtension "vts" = b3
    generalize File.hasExtension "vtr" = b4
    generalize File.hasExtension "vti" = b5
    generalize File.hasExtension "vtu" = b6
    generalize File.hasExtension "pvtu" = b7
    rw [hr]
    cases b1 <;> cases b2 <;> cases b3 <;> cases b4 <;> cases b5 <;> cases b6 <;>
      cases b7 <;> simp

/-- C17, on three files: a readable `mesh.vtu` is accepted and read with the unstructured-grid
reader, an unreadable one throws the exception carrying the file, and a readable `notes.txt`
throws the unknown-extension exception. -/
theorem canRead_and_read_agree_witness :
    FemPostPipeline.canRead (FileInfo.withExtension "mesh.vtu" "vtu" true) = true ∧
    FemPostPipeline.read (FileInfo.withExtension "mesh.vtu" "vtu" true)
      = ReadResult.readXMLFile Reader.vtkXMLUnstructuredGridReader "mesh.vtu" ∧
    FemPostPipeline.read (FileInfo.withExtension "mesh.vtu" "vtu" false)
      = ReadResult.FileException "File to load not existing or not readable"
          (some (FileInfo.withExtension "mesh.vtu" "vtu" false)) ∧
    FemPostPipeline.read (FileInfo.withExtension "notes.txt" "txt" true)
      = ReadResult.FileException "Unknown extension" none :=
  ⟨(canRead_and_read_agree (FileInfo.withExtension "mesh.vtu" "vtu" true)).1.mpr
      ⟨"vtu", by decide, by decide⟩,
    by simp [FemPostPipeline.read, FileInfo.withExtension],
    (canRead_and_read_agree (FileInfo.withExtension "mesh.vtu" "vtu" false)).2.2.1 rfl,
    (canRead_and_read_agree (FileInfo.withExtension "notes.txt" "txt" true)).2.2.2.1 rfl
      (by decide)⟩

/-! ## Invalidation against the wired connections -/

theorem mem_drop_iff_index (chain : List ObjId) (a : Nat) (m : ObjId) :
    m ∈ chain.drop (a + 1) ↔ ∃ b : Nat, a < b ∧ chain[b]? = some m := by
  constructor
  · intro h
    obtain ⟨k, hk⟩ := List.mem_iff_getElem?.mp h
    rw [List.getElem?_drop] at hk
    exact ⟨a + 1 + k, by omega, hk⟩
  · rintro ⟨b, hab, hb⟩
    apply List.mem_iff_getElem?.mpr
    refine ⟨b - (a + 1), ?_⟩
    rw [List.getElem?_drop]
    rw [show a + 1 + (b - (a + 1)) = b by omega]
    exact hb

theorem serial_inputs_of_nodup (chain : List ObjId) (hnd : chain.Nodup) (objects : PostObjects) :
    ∀ (i : Nat) (n : ObjId), chain[i]? = some n →
      (FemPostPipeline.rewireLoop 0 none chain objects).1.inputs n
        = [serialUpstream (if i = 0 then none else chain[i - 1]?)] := by
  intro i n hi
  apply (FemPostPipeline.rewireLoop_serial chain none objects).2.2 i n hi
  intro hmem
  obtain ⟨b, hib, hb⟩ := (mem_drop_iff_index chain i n).mp hmem
  have := nodup_index_unique chain hnd i b n hi hb
  omega

theorem dependsOn_iff_after (chain : List ObjId) (hnd : chain.Nodup)
    (inputs : ObjId → List Port)
    (hwired : ∀ (i : Nat) (n : ObjId), chain[i]? = some n →
      inputs n = [serialUpstream (if i = 0 then none else chain[i - 1]?)])
    (a b : Nat) (f m : ObjId) (ha : chain[a]? = some f) (hb : chain[b]? = some m) :
    DependsOn inputs f m ↔ a < b := by
  have hdirect : ∀ (p n : ObjId) (j : Nat), chain[j]? = some n → directInput inputs p n →
      ∃ k : Nat, j = k + 1 ∧ chain[k]? = some p := by
    intro p n j hj hd
    unfold directInput at hd
    rw [hwired j n hj] at hd
    cases j with
    | zero => simp [serialUpstream] at hd
    | succ k =>
      refine ⟨k, rfl, ?_⟩
      simp only [Nat.add_one_ne_zero, if_false, Nat.add_sub_cancel] at hd
      cases hk : chain[k]? with
      | none => rw [hk] at hd; simp [serialUpstream] at hd
      | some q =>
        rw [hk] at hd
        simp [serialUpstream] at hd
        rw [hd]
  constructor
  · intro hdep
    have key : ∀ n : ObjId, Relation.TransGen (directInput inputs) f n →
        ∀ j : Nat, chain[j]? = some n → a < j := by
      intro n hn
      induction hn with
      | single hd =>
        intro j hj
        obtain ⟨k, hjk, hk⟩ := hdirect _ _ j hj hd
        have := nodup_index_unique chain hnd a k f ha hk
        omega
      | tail _ hd ih =>
        intro j hj
        obtain ⟨k, hjk, hk⟩ := hdirect _ _ j hj hd
        have := ih k hk
        omega
    exact key m hdep b hb
  · intro hab
    have key : ∀ (d : Nat) (n : ObjId), chain[a + 1 + d]? = some n →
        Relation.TransGen (directInput inputs) f n := by
      intro d
      induction d with
      | zero =>
        intro n hn
        apply Relation.TransGen.single
        unfold directInput
        rw [hwired (a + 1) n hn]
        simp [serialUpstream, ha]
      | succ d ih =>
        intro n hn
        have hlt : a + 1 + d < chain.length := by
          have := (List.getElem?_eq_some_iff.mp hn).1
          omega
        have hp : chain[a + 1 + d]? = some chain[a + 1 + d] := List.getElem?_eq_getElem hlt
        apply Relation.TransGen.tail (ih _ hp)
        unfold directInput
        rw [hwired (a + 1 + (d + 1)) n hn]
        have : a + 1 + (d + 1) - 1 = a + 1 + d := by omega
        simp [serialUpstream, this, hp]
    have hbd : b = a + 1 + (b - (a + 1)) := by omega
    rw [hbd] at hb
    exact key _ m hb

/-- C19: after the Serial rewiring of a non-empty chain of pairwise-distinct members, for members
`f` and `m` of the chain, `filterChanged f` marks `m` exactly when the input of `m` depends on
the active output of `f`, directly or transitively through the wired connections. -/
theorem filterChanged_marks_exactly_dependents {U : Type} (uops : UnitOps U)
    (self : FemPostPipeline) (f m : ObjId)
    (hmode : self.Mode = 0) (hnd : self.Group.Nodup) (hne : self.Group ≠ [])
    (hf : f ∈ self.Group) (hm : m ∈ self.Group) :
    markedBy (FemPostPipeline.onChanged uops Property.Group self).state f m = true
      ↔ DependsOn (FemPostPipeline.onChanged uops Property.Group self).state.objects.inputs
          f m := by
  have hempty : self.Group.isEmpty = false := by
    cases hg : self.Group with
    | nil => exact absurd hg hne
    | cons a l => rfl
  have hrun : (FemPostPipeline.onChanged uops Property.Group self).state
      = { self with
          objects := (FemPostPipeline.rewireLoop 0 none self.Group self.objects).1 } := by
    simp [FemPostPipeline.onChanged, FemPostPipeline.onChangedGroupOrMode, hempty, hmode]
  obtain ⟨a, ha⟩ := List.mem_iff_getElem?.mp hf
  obtain ⟨b, hb⟩ := List.mem_iff_getElem?.mp hm
  rw [hrun]
  have hdep := dependsOn_iff_after self.Group hnd
    (FemPostPipeline.rewireLoop 0 none self.Group self.objects).1.inputs
    (serial_inputs_of_nodup self.Group hnd self.objects) a b f m ha hb
  have hmark : markedBy
      { self with objects := (FemPostPipeline.rewireLoop 0 none self.Group self.objects).1 } f m
      = decide (m ∈ self.Group.drop (a + 1)) := by
    unfold markedBy clearTouched FemPostPipeline.filterChanged
    simp only [hmode, hempty, if_true]
    rw [← FemPostPipeline.membersAfter_nodup f self.Group a hnd ha]
    simpa using FemPostPipeline.filterLoop_touched f self.Group false
      { (FemPostPipeline.rewireLoop 0 none self.Group self.objects).1 with
        touched := fun _ => false } m
  rw [hmark]
  show _ ↔ DependsOn (FemPostPipeline.rewireLoop 0 none self.Group self.objects).1.inputs f m
  rw [hdep, decide_eq_true_iff, mem_drop_iff_index]
  constructor
  · rintro ⟨b2, hab, hb2⟩
    have := nodup_index_unique self.Group hnd b b2 m hb hb2
    omega
  · intro hab
    exact ⟨b, hab, hb⟩

/-- C19, on the chain `[10, 11, 12]` rewired in Serial mode: a change of 10 marks 12, whose input
depends on 10 through 11; a change of 12 does not mark 10, which does not depend on 12. -/
theorem filterChanged_marks_exactly_dependents_witness :
    staleSerialChain.Mode = 0 ∧ staleSerialChain.Group.Nodup ∧
    markedBy (FemPostPipeline.onChanged UnitOps.text Property.Group staleSerialChain).state
      10 12 = true ∧
    DependsOn (FemPostPipeline.onChanged UnitOps.text Property.Group
      staleSerialChain).state.objects.inputs 10 12 ∧
    markedBy (FemPostPipeline.onChanged UnitOps.text Property.Group staleSerialChain).state
      12 10 = false ∧
    ¬ DependsOn (FemPostPipeline.onChanged UnitOps.text Property.Group
      staleSerialChain).state.objects.inputs 12 10 :=
  have hmark : markedBy
      (FemPostPipeline.onChanged UnitOps.text Property.Group staleSerialChain).state 10 12
      = true := by decide
  have hnot : markedBy
      (FemPostPipeline.onChanged UnitOps.text Property.Group staleSerialChain).state 12 10
      = false := by decide
  ⟨rfl, by decide, hmark,
    (filterChanged_marks_exactly_dependents UnitOps.text staleSerialChain 10 12 rfl (by decide)
      (by decide) (by decide) (by decide)).mp hmark,
    hnot,
    fun hdep => absurd
      ((filterChanged_marks_exactly_dependents UnitOps.text staleSerialChain 12 10 rfl
        (by decide) (by decide) (by decide) (by decide)).mpr hdep)
      (by rw [hnot]; decide)⟩

end Fem
